import Mathlib

/-!
Shallow embedding of the `syncer` package of lpg-it/fileuploader
(src/syncer/syncer.go), together with proofs checking the natural-language
specification against it.

Remote paths are lists of path components.  The remote SFTP store is
modelled as an association list from full paths to node metadata, and every
client call both records the issued operation in a trace and applies its
semantic effect to that store.  Failures of the remote side (network or
server errors) are injected through a `Faults` oracle carried by the
`Syncer`, mirroring the fact that any client call in the Go code can return
an error.  The local filesystem walker (`collectLocalFiles`) is a
collaborator over the OS; the sync functions below take its output — the
list of `FileInfo` entries — as a parameter, exactly as the rest of the Go
code consumes it.
-/

namespace FileUploader

/-- A filesystem path, as a list of components. -/
abbrev Path := List String

/-- Metadata of one remote filesystem node: a directory, or a file with
size, modification time, permission mode and access time. -/
inductive RMeta where
  | dir : RMeta
  | file (size : Nat) (mtime : Int) (mode : Nat) (atime : Int) : RMeta
deriving DecidableEq, Repr

/-- Mirrors Go `FileInfo` (syncer.go lines 33-39): one local filesystem
node discovered by the walker. -/
structure FileInfo where
  path : Path
  relPath : Path
  size : Nat
  modTime : Int
  isDir : Bool
deriving DecidableEq, Repr

/-- The remote store: an association list from full paths to metadata. -/
abbrev RemoteFS := List (Path × RMeta)

/-- Look up the metadata at a path. -/
def lookupFS (fs : RemoteFS) (p : Path) : Option RMeta :=
  (fs.find? (fun e => decide (e.1 = p))).map (·.2)

/-- Set the metadata at a path (insert or overwrite). -/
def setFS (fs : RemoteFS) (p : Path) (m : RMeta) : RemoteFS :=
  (p, m) :: fs.filter (fun e => decide (e.1 ≠ p))

/-- Remove the entry at exactly one path. -/
def removeFS (fs : RemoteFS) (p : Path) : RemoteFS :=
  fs.filter (fun e => decide (e.1 ≠ p))

/-- Fault-injection oracle for the remote side: which client calls fail
with a transport/server error.  `writeFail` is indexed by the chunk number
of the streamed copy so that a transfer can fail mid-file. -/
structure Faults where
  openFail : Path → Bool
  mkdirFail : Path → Bool
  createFail : Path → Bool
  writeFail : Path → Nat → Bool
  chmodFail : Path → Bool
  chtimesFail : Path → Bool
  renameFail : Path → Path → Bool
  removeFail : Path → Bool

/-- The oracle injecting no faults at all. -/
def noFaults : Faults :=
  ⟨fun _ => false, fun _ => false, fun _ => false, fun _ _ => false,
   fun _ => false, fun _ => false, fun _ _ => false, fun _ => false⟩

/-- One remote client operation, as issued over the wire. -/
inductive Op where
  | mkdirAll (p : Path)
  | removeDir (p : Path)
  | statOp (p : Path)
  | rename (o n : Path)
  | create (p : Path)
  | write (p : Path) (n : Nat)
  | chmod (p : Path) (mode : Nat)
  | chtimes (p : Path) (atime mtime : Int)
deriving DecidableEq, Repr

/-- An operation that removes or moves remote entries. -/
def Op.isDestructive : Op → Bool
  | Op.rename _ _ => true
  | Op.removeDir _ => true
  | _ => false

/-- The state threaded through one sync call: the remote store, the trace
of issued operations, the logged warnings, and the shared progress counter
`syncedSize` together with the list of its individual increments
(`events`), one per successful chunk write (syncer.go lines 353-356). -/
structure SyncState where
  fs : RemoteFS
  trace : List Op
  warnings : List String
  syncedSize : Nat
  events : List Nat
deriving DecidableEq, Repr

/-- A fresh session state over a given remote store. -/
def initState (fs : RemoteFS) : SyncState := ⟨fs, [], [], 0, []⟩

/-- Render a path the way the Go code renders it in messages. -/
def pathStr (p : Path) : String := String.intercalate "/" p

/-- One step of `MkdirAll`: create the directory at `q` if missing; an
existing directory is left alone, an existing file is an error. -/
def mkdirStep (f : Faults) (q : Path) (fs : RemoteFS) : Except String RemoteFS :=
  if f.mkdirFail q then Except.error ("mkdir failure at " ++ pathStr q)
  else
    match lookupFS fs q with
    | none => Except.ok (setFS fs q RMeta.dir)
    | some RMeta.dir => Except.ok fs
    | some (RMeta.file _ _ _ _) => Except.error ("not a directory: " ++ pathStr q)

/-- Semantics of `sftp.Client.MkdirAll`: create every missing ancestor of
`p` and then `p` itself, parents first. -/
def mkdirAllFS (f : Faults) (p : Path) (fs : RemoteFS) : Except String RemoteFS :=
  (p.inits.drop 1).foldlM (fun acc q => mkdirStep f q acc) fs

/-- Client call `MkdirAll`: records the operation, applies the semantics. -/
def clientMkdirAll (f : Faults) (p : Path) (st : SyncState) :
    Except String Unit × SyncState :=
  let st1 := { st with trace := st.trace ++ [Op.mkdirAll p] }
  match mkdirAllFS f p st1.fs with
  | Except.error e => (Except.error e, st1)
  | Except.ok fs' => (Except.ok (), { st1 with fs := fs' })

/-- Client call `Stat`: reports whether an entry exists at the path
(syncer.go checks only `err == nil`). -/
def clientStat (p : Path) (st : SyncState) : Bool × SyncState :=
  ((lookupFS st.fs p).isSome, { st with trace := st.trace ++ [Op.statOp p] })

/-- Client call `Create`: create or truncate the remote file. -/
def clientCreate (f : Faults) (p : Path) (st : SyncState) :
    Except String Unit × SyncState :=
  let st1 := { st with trace := st.trace ++ [Op.create p] }
  if f.createFail p then (Except.error ("create failure at " ++ pathStr p), st1)
  else
    match lookupFS st1.fs p with
    | some RMeta.dir => (Except.error ("is a directory: " ++ pathStr p), st1)
    | _ => (Except.ok (), { st1 with fs := setFS st1.fs p (RMeta.file 0 0 0 0) })

/-- Append `n` bytes to the remote file at `p`. -/
def growFile (fs : RemoteFS) (p : Path) (n : Nat) : RemoteFS :=
  match lookupFS fs p with
  | some (RMeta.file sz mt md a) => setFS fs p (RMeta.file (sz + n) mt md a)
  | _ => fs

/-- Client call `Write` of one chunk of `n` bytes (chunk number `i`). -/
def clientWrite (f : Faults) (p : Path) (i n : Nat) (st : SyncState) :
    Except String Unit × SyncState :=
  let st1 := { st with trace := st.trace ++ [Op.write p n] }
  if f.writeFail p i then (Except.error ("write failure at " ++ pathStr p), st1)
  else (Except.ok (), { st1 with fs := growFile st1.fs p n })

/-- Client call `Chmod`. -/
def clientChmod (f : Faults) (p : Path) (mode : Nat) (st : SyncState) :
    Except String Unit × SyncState :=
  let st1 := { st with trace := st.trace ++ [Op.chmod p mode] }
  if f.chmodFail p then (Except.error ("chmod failure at " ++ pathStr p), st1)
  else
    match lookupFS st1.fs p with
    | some (RMeta.file sz mt _ a) =>
        (Except.ok (), { st1 with fs := setFS st1.fs p (RMeta.file sz mt mode a) })
    | _ => (Except.error ("chmod: no such file: " ++ pathStr p), st1)

/-- Client call `Chtimes`: set access and modification time. -/
def clientChtimes (f : Faults) (p : Path) (atime mtime : Int) (st : SyncState) :
    Except String Unit × SyncState :=
  let st1 := { st with trace := st.trace ++ [Op.chtimes p atime mtime] }
  if f.chtimesFail p then (Except.error ("chtimes failure at " ++ pathStr p), st1)
  else
    match lookupFS st1.fs p with
    | some (RMeta.file sz _ md _) =>
        (Except.ok (), { st1 with fs := setFS st1.fs p (RMeta.file sz mtime md atime) })
    | _ => (Except.error ("chtimes: no such file: " ++ pathStr p), st1)

/-- Rewrite one entry under a directory rename. -/
def renameEntry (o n : Path) (e : Path × RMeta) : Path × RMeta :=
  if o.isPrefixOf e.1 then (n ++ e.1.drop o.length, e.2) else e

/-- Move the whole subtree rooted at `o` to `n`. -/
def renameFS (o n : Path) (fs : RemoteFS) : RemoteFS :=
  fs.map (renameEntry o n)

/-- Client call `Rename`: atomically move a subtree; fails if the source
is missing or the target already exists. -/
def clientRename (f : Faults) (o n : Path) (st : SyncState) :
    Except String Unit × SyncState :=
  let st1 := { st with trace := st.trace ++ [Op.rename o n] }
  if f.renameFail o n then
    (Except.error ("rename failure " ++ pathStr o ++ " to " ++ pathStr n), st1)
  else if (lookupFS st1.fs o).isNone then
    (Except.error ("rename: no such path: " ++ pathStr o), st1)
  else if (lookupFS st1.fs n).isSome then
    (Except.error ("rename: target exists: " ++ pathStr n), st1)
  else (Except.ok (), { st1 with fs := renameFS o n st1.fs })

/-- Does the store hold a proper descendant of `p`? -/
def hasChild (fs : RemoteFS) (p : Path) : Bool :=
  fs.any (fun e => p.isPrefixOf e.1 && decide (e.1 ≠ p))

/-- Client call `RemoveDirectory` (SFTP rmdir: non-recursive): remove an
empty directory. -/
def clientRemoveDir (f : Faults) (p : Path) (st : SyncState) :
    Except String Unit × SyncState :=
  let st1 := { st with trace := st.trace ++ [Op.removeDir p] }
  if f.removeFail p then (Except.error ("remove failure at " ++ pathStr p), st1)
  else
    match lookupFS st1.fs p with
    | some RMeta.dir =>
        if hasChild st1.fs p then (Except.error ("directory not empty: " ++ pathStr p), st1)
        else (Except.ok (), { st1 with fs := removeFS st1.fs p })
    | _ => (Except.error ("remove: not a directory: " ++ pathStr p), st1)

/-- Mirrors Go `Syncer` (syncer.go lines 42-53), with the SFTP client
replaced by the fault oracle and the `time.Now()` readings made explicit
(`tempStamp`/`backupStamp` for the directory-name timestamps, `now` for
the access time passed to `Chtimes`). -/
structure Syncer where
  localPath : Path
  remotePath : Path
  mode : String
  workers : Int
  faults : Faults
  tempStamp : String
  backupStamp : String
  now : Int

/-- Fuel-driven recursion for `chunks`: the fuel bounds the number of full
buffers, so `fuel = n` always suffices. -/
def chunksAux : Nat → Nat → List Nat
  | 0, _ => []
  | fuel + 1, n =>
    if n = 0 then []
    else if n ≤ 32768 then [n]
    else 32768 :: chunksAux fuel (n - 32768)

/-- The chunk sizes produced by the 32KB-buffer streamed copy of a file of
`n` bytes (syncer.go lines 345-365). -/
def chunks (n : Nat) : List Nat := chunksAux n n

/-- The copy loop of `uploadFile`: write each chunk; after every
successful write, add its size to the shared counter under the session
lock (syncer.go lines 345-365). -/
def copyChunks (f : Faults) (p : Path) : List Nat → Nat → SyncState →
    Except String Unit × SyncState
  | [], _, st => (Except.ok (), st)
  | n :: rest, i, st =>
    match clientWrite f p i n st with
    | (Except.error e, st') => (Except.error ("failed to write to remote file: " ++ e), st')
    | (Except.ok _, st') =>
        copyChunks f p rest (i + 1)
          { st' with syncedSize := st'.syncedSize + n, events := st'.events ++ [n] }

/-- The content phase of `uploadFile` (syncer.go lines 317-365): open the
local file, ensure the remote parent directory, create the remote file and
stream its content. -/
def uploadFileContent (s : Syncer) (file : FileInfo) (base : Path) (st : SyncState) :
    Except String Unit × SyncState :=
  if s.faults.openFail file.path then
    (Except.error "failed to open local file: open failure", st)
  else
    match clientMkdirAll s.faults (base ++ file.relPath).dropLast st with
    | (Except.error e, st') => (Except.error ("failed to create remote directory: " ++ e), st')
    | (Except.ok _, st') =>
      match clientCreate s.faults (base ++ file.relPath) st' with
      | (Except.error e, st'') => (Except.error ("failed to create remote file: " ++ e), st'')
      | (Except.ok _, st'') =>
          copyChunks s.faults (base ++ file.relPath) (chunks file.size) 0 st''

/-- The metadata phase of `uploadFile` (syncer.go lines 367-374): set the
fixed mode 0644 and then the times; each failure is only a warning. -/
def uploadFileMeta (s : Syncer) (file : FileInfo) (base : Path) (st : SyncState) :
    SyncState :=
  let p := base ++ file.relPath
  let st1 :=
    match clientChmod s.faults p 0o644 st with
    | (Except.error e, st') =>
        { st' with warnings := st'.warnings ++ ["Failed to set permissions for " ++ pathStr p ++ ": " ++ e] }
    | (Except.ok _, st') => st'
  match clientChtimes s.faults p s.now file.modTime st1 with
  | (Except.error e, st') =>
      { st' with warnings := st'.warnings ++ ["Failed to set modification time for " ++ pathStr p ++ ": " ++ e] }
  | (Except.ok _, st') => st'

/-- Mirrors Go `uploadFile` (syncer.go lines 317-378): content copy, then
best-effort metadata; the function succeeds whenever the content phase
succeeds. -/
def uploadFile (s : Syncer) (file : FileInfo) (base : Path) (st : SyncState) :
    Except String Unit × SyncState :=
  match uploadFileContent s file base st with
  | (Except.error e, st') => (Except.error e, st')
  | (Except.ok _, st') => (Except.ok (), uploadFileMeta s file base st')

/-- One worker iteration (syncer.go lines 293-314): create the remote
directory for a directory entry, upload a file entry; any error is
appended to the shared error collection and processing continues. -/
def workerStep (s : Syncer) (base : Path) (acc : SyncState × List String)
    (file : FileInfo) : SyncState × List String :=
  if file.isDir then
    match clientMkdirAll s.faults (base ++ file.relPath) acc.1 with
    | (Except.error e, st') =>
        (st', acc.2 ++ ["failed to create remote directory " ++ pathStr (base ++ file.relPath) ++ ": " ++ e])
    | (Except.ok _, st') => (st', acc.2)
  else
    match uploadFile s file base acc.1 with
    | (Except.error e, st') =>
        (st', acc.2 ++ ["failed to upload file " ++ pathStr file.relPath ++ ": " ++ e])
    | (Except.ok _, st') => (st', acc.2)

/-- The sequential denotation of the worker pool draining the job queue:
every entry is processed, errors are collected. -/
def uploadFilesRun (s : Syncer) (files : List FileInfo) (base : Path) (st : SyncState) :
    SyncState × List String :=
  files.foldl (workerStep s base) (st, [])

/-- Mirrors Go `uploadFiles` (syncer.go lines 253-290): start `workers`
workers (none when the count is not positive — the buffered job channel
is filled, closed and never drained, and the wait barrier returns at
once), drain the queue, and fail exactly when the error collection is
non-empty. -/
def uploadFiles (s : Syncer) (files : List FileInfo) (base : Path) (st : SyncState) :
    Except String Unit × SyncState :=
  let processed := if s.workers ≥ 1 then files else []
  let r := uploadFilesRun s processed base st
  match r.2 with
  | [] => (Except.ok (), r.1)
  | e :: _ => (Except.error ("worker error: " ++ e), r.1)

/-- Mirrors Go `incrementalSync` (syncer.go lines 165-205): ensure the
remote base directory, then run the upload pipeline on every collected
entry.  (The progress bar is a collaborator and is not modelled.) -/
def incrementalSync (s : Syncer) (files : List FileInfo) (st : SyncState) :
    Except String Unit × SyncState :=
  match clientMkdirAll s.faults s.remotePath st with
  | (Except.error e, st') => (Except.error ("failed to create remote directory: " ++ e), st')
  | (Except.ok _, st') =>
    match uploadFiles s files s.remotePath st' with
    | (Except.error e, st'') => (Except.error ("failed to upload files: " ++ e), st'')
    | (Except.ok _, st'') => (Except.ok (), st'')

/-- The temporary staging directory name (syncer.go line 107). -/
def tempRemotePath (s : Syncer) : Path :=
  s.remotePath.dropLast ++ [".sync_tmp_" ++ s.tempStamp]

/-- The backup directory name (syncer.go line 130). -/
def backupRemotePath (s : Syncer) : Path :=
  s.remotePath.dropLast ++ [s.remotePath.getLastD "" ++ ".bak_" ++ s.backupStamp]

/-- The deferred cleanup of `fullSync` (syncer.go lines 116-122): remove
the temporary directory, a failure being only a warning. -/
def cleanupTemp (s : Syncer) (st : SyncState) : SyncState :=
  match clientRemoveDir s.faults (tempRemotePath s) st with
  | (Except.error e, st') =>
      { st' with warnings := st'.warnings ++ ["Failed to remove temporary directory: " ++ e] }
  | (Except.ok _, st') => st'

/-- The swap step of `fullSync` (syncer.go lines 140-159): rename the
staging directory onto the target; on failure, restore the backup when one
exists; on success, best-effort remove the backup. -/
def swapPhase (s : Syncer) (st : SyncState) : Except String Unit × SyncState :=
  match clientRename s.faults (tempRemotePath s) s.remotePath st with
  | (Except.ok _, st') =>
      let r := clientStat (backupRemotePath s) st'
      if r.1 then
        match clientRemoveDir s.faults (backupRemotePath s) r.2 with
        | (Except.error e, st'') =>
            (Except.ok (), { st'' with warnings := st''.warnings ++ ["Failed to remove backup directory: " ++ e] })
        | (Except.ok _, st'') => (Except.ok (), st'')
      else (Except.ok (), r.2)
  | (Except.error e, st') =>
      let r := clientStat (backupRemotePath s) st'
      if r.1 then
        match clientRename s.faults (backupRemotePath s) s.remotePath r.2 with
        | (Except.error re, st'') =>
            (Except.error ("sync failed and restore failed: " ++ e ++ ", restore error: " ++ re), st'')
        | (Except.ok _, st'') =>
            (Except.error ("sync failed, restored from backup: " ++ e), st'')
      else (Except.error ("failed to rename temporary directory: " ++ e), r.2)

/-- The body of `fullSync` after the staging directory exists (syncer.go
lines 124-159): upload everything into staging, back up the live target if
present, then swap. -/
def fullSyncBody (s : Syncer) (files : List FileInfo) (st : SyncState) :
    Except String Unit × SyncState :=
  match uploadFiles s files (tempRemotePath s) st with
  | (Except.error e, st') => (Except.error ("failed to upload files: " ++ e), st')
  | (Except.ok _, st') =>
    let r := clientStat s.remotePath st'
    if r.1 then
      match clientRename s.faults s.remotePath (backupRemotePath s) r.2 with
      | (Except.error e, st'') => (Except.error ("failed to create backup: " ++ e), st'')
      | (Except.ok _, st'') => swapPhase s st''
    else swapPhase s r.2

/-- Mirrors Go `fullSync` (syncer.go lines 80-162): create the staging
directory, run the body, and always run the deferred temporary-directory
cleanup on the way out. -/
def fullSync (s : Syncer) (files : List FileInfo) (st : SyncState) :
    Except String Unit × SyncState :=
  match clientMkdirAll s.faults (tempRemotePath s) st with
  | (Except.error e, st') => (Except.error ("failed to create temporary directory: " ++ e), st')
  | (Except.ok _, st') =>
    let r := fullSyncBody s files st'
    (r.1, cleanupTemp s r.2)

/-- Mirrors Go `Sync` (syncer.go lines 68-77). -/
def Sync (s : Syncer) (files : List FileInfo) (st : SyncState) :
    Except String Unit × SyncState :=
  if s.mode = "full" then fullSync s files st
  else if s.mode = "incremental" then incrementalSync s files st
  else (Except.error ("unsupported sync mode: " ++ s.mode), st)

/-- Modelled from the spec: the Change Decision Policy of incremental mode
(spec section 4.2) — upload when no remote metadata exists for the relative
path of the entry, or when the remote metadata differs from the local entry in
size or modification time; otherwise skip.  No function in
src/syncer/syncer.go implements this policy; this definition follows the
wording of the spec, for comparison with `incrementalSync` from the source. -/
def specShouldUpload (localEntry : FileInfo) (remoteMetadata : Option RMeta) : Bool :=
  match remoteMetadata with
  | none => true
  | some RMeta.dir => true
  | some (RMeta.file sz mt _ _) =>
      decide (sz ≠ localEntry.size) || decide (mt ≠ localEntry.modTime)

deriving instance DecidableEq for Except

/-! ### Basic store lemmas -/

theorem lookupFS_setFS_self (fs : RemoteFS) (p : Path) (m : RMeta) :
    lookupFS (setFS fs p m) p = some m := by
  simp [lookupFS, setFS, List.find?]

theorem find?_filter_ne (fs : RemoteFS) (p q : Path) (h : q ≠ p) :
    (fs.filter (fun e => decide (e.1 ≠ p))).find? (fun e => decide (e.1 = q)) =
      fs.find? (fun e => decide (e.1 = q)) := by
  induction fs with
  | nil => rfl
  | cons a t ih =>
    rw [List.filter_cons]
    by_cases hp : a.1 = p
    · rw [if_neg (by simp [hp])]
      have hq : decide (a.1 = q) = false := by
        refine decide_eq_false ?_
        rw [hp]; exact fun hqq => h hqq.symm
      rw [List.find?_cons, hq]
      exact ih
    · rw [if_pos (by simp [hp])]
      rw [List.find?_cons, List.find?_cons]
      cases hq : decide (a.1 = q) with
      | true => rfl
      | false => exact ih

theorem lookupFS_setFS_ne (fs : RemoteFS) (p q : Path) (m : RMeta) (h : q ≠ p) :
    lookupFS (setFS fs p m) q = lookupFS fs q := by
  unfold lookupFS setFS
  rw [List.find?_cons, show decide (((p, m) : Path × RMeta).1 = q) = false from
    decide_eq_false fun hpq => h hpq.symm, find?_filter_ne fs p q h]

theorem lookupFS_removeFS_ne (fs : RemoteFS) (p q : Path) (h : q ≠ p) :
    lookupFS (removeFS fs p) q = lookupFS fs q := by
  unfold lookupFS removeFS
  rw [find?_filter_ne fs p q h]

/-! ### MkdirAll lemmas -/

theorem mkdirStep_ok_lookup_ne {f : Faults} {q : Path} {fs fs' : RemoteFS}
    (h : mkdirStep f q fs = Except.ok fs') (r : Path) (hr : r ≠ q) :
    lookupFS fs' r = lookupFS fs r := by
  unfold mkdirStep at h
  split at h
  · exact absurd h (by simp)
  · split at h
    · cases h; exact lookupFS_setFS_ne fs q r RMeta.dir hr
    · cases h; rfl
    · exact absurd h (by simp)

theorem mkdirStep_ok_preserves_some {f : Faults} {q : Path} {fs fs' : RemoteFS}
    (h : mkdirStep f q fs = Except.ok fs') (r : Path) (m : RMeta)
    (hm : lookupFS fs r = some m) : lookupFS fs' r = some m := by
  by_cases hr : r = q
  · subst hr
    unfold mkdirStep at h
    split at h
    · exact absurd h (by simp)
    · rename_i hnone
      split at h
      · rename_i hq; rw [hq] at hm; cases hm
      · cases h; exact hm
      · exact absurd h (by simp)
  · rw [mkdirStep_ok_lookup_ne h r hr]; exact hm

theorem mkdirFold_untouched {f : Faults} (qs : List Path) {fs fs' : RemoteFS}
    (h : qs.foldlM (fun acc q => mkdirStep f q acc) fs = Except.ok fs')
    (r : Path) (hr : r ∉ qs) : lookupFS fs' r = lookupFS fs r := by
  induction qs generalizing fs with
  | nil => cases h; rfl
  | cons q t ih =>
    rw [List.foldlM_cons] at h
    cases hstep : mkdirStep f q fs with
    | error e => rw [hstep] at h; exact Except.noConfusion h
    | ok mid =>
      rw [hstep] at h
      have h1 : r ∉ t := fun hm => hr (List.mem_cons_of_mem _ hm)
      have h2 : r ≠ q := fun he => hr (he ▸ List.mem_cons_self q t)
      rw [ih h h1, mkdirStep_ok_lookup_ne hstep r h2]

theorem mkdirFold_preserves_some {f : Faults} (qs : List Path) {fs fs' : RemoteFS}
    (h : qs.foldlM (fun acc q => mkdirStep f q acc) fs = Except.ok fs')
    (r : Path) (m : RMeta) (hm : lookupFS fs r = some m) :
    lookupFS fs' r = some m := by
  induction qs generalizing fs with
  | nil => cases h; exact hm
  | cons q t ih =>
    rw [List.foldlM_cons] at h
    cases hstep : mkdirStep f q fs with
    | error e => rw [hstep] at h; exact Except.noConfusion h
    | ok mid =>
      rw [hstep] at h
      exact ih h (mkdirStep_ok_preserves_some hstep r m hm)

theorem mkdirAllFS_untouched {f : Faults} {p : Path} {fs fs' : RemoteFS}
    (h : mkdirAllFS f p fs = Except.ok fs') (r : Path) (hr : ¬ r <+: p) :
    lookupFS fs' r = lookupFS fs r := by
  refine mkdirFold_untouched _ h r fun hmem => hr ?_
  have : r ∈ p.inits := List.mem_of_mem_drop hmem
  exact (List.mem_inits r p).mp this

theorem mkdirAllFS_preserves_some {f : Faults} {p : Path} {fs fs' : RemoteFS}
    (h : mkdirAllFS f p fs = Except.ok fs') (r : Path) (m : RMeta)
    (hm : lookupFS fs r = some m) : lookupFS fs' r = some m :=
  mkdirFold_preserves_some _ h r m hm

/-! ### Client-call frame lemmas: control fields and store footprints -/

theorem clientMkdirAll_ctl (f : Faults) (p : Path) (st : SyncState) :
    (clientMkdirAll f p st).2.trace = st.trace ++ [Op.mkdirAll p] ∧
    (clientMkdirAll f p st).2.warnings = st.warnings ∧
    (clientMkdirAll f p st).2.syncedSize = st.syncedSize ∧
    (clientMkdirAll f p st).2.events = st.events := by
  unfold clientMkdirAll
  dsimp only
  cases mkdirAllFS f p st.fs <;> exact ⟨rfl, rfl, rfl, rfl⟩

theorem clientMkdirAll_fs_untouched (f : Faults) (p : Path) (st : SyncState)
    (r : Path) (hr : ¬ r <+: p) :
    lookupFS (clientMkdirAll f p st).2.fs r = lookupFS st.fs r := by
  unfold clientMkdirAll
  dsimp only
  cases hm : mkdirAllFS f p st.fs with
  | error e => rfl
  | ok fs' => exact mkdirAllFS_untouched hm r hr

theorem clientMkdirAll_preserves_some (f : Faults) (p : Path) (st : SyncState)
    (r : Path) (m : RMeta) (hm : lookupFS st.fs r = some m) :
    lookupFS (clientMkdirAll f p st).2.fs r = some m := by
  unfold clientMkdirAll
  dsimp only
  cases hmm : mkdirAllFS f p st.fs with
  | error e => exact hm
  | ok fs' => exact mkdirAllFS_preserves_some hmm r m hm

theorem clientCreate_ctl (f : Faults) (p : Path) (st : SyncState) :
    (clientCreate f p st).2.trace = st.trace ++ [Op.create p] ∧
    (clientCreate f p st).2.warnings = st.warnings ∧
    (clientCreate f p st).2.syncedSize = st.syncedSize ∧
    (clientCreate f p st).2.events = st.events := by
  unfold clientCreate
  dsimp only
  split
  · exact ⟨rfl, rfl, rfl, rfl⟩
  · split <;> exact ⟨rfl, rfl, rfl, rfl⟩

theorem clientCreate_fs_ne (f : Faults) (p : Path) (st : SyncState)
    (r : Path) (hr : r ≠ p) :
    lookupFS (clientCreate f p st).2.fs r = lookupFS st.fs r := by
  unfold clientCreate
  dsimp only
  split
  · rfl
  · split
    · rfl
    · exact lookupFS_setFS_ne _ _ _ _ hr

theorem clientWrite_ctl (f : Faults) (p : Path) (i n : Nat) (st : SyncState) :
    (clientWrite f p i n st).2.trace = st.trace ++ [Op.write p n] ∧
    (clientWrite f p i n st).2.warnings = st.warnings ∧
    (clientWrite f p i n st).2.syncedSize = st.syncedSize ∧
    (clientWrite f p i n st).2.events = st.events := by
  unfold clientWrite
  dsimp only
  split <;> exact ⟨rfl, rfl, rfl, rfl⟩

theorem clientWrite_fs_ne (f : Faults) (p : Path) (i n : Nat) (st : SyncState)
    (r : Path) (hr : r ≠ p) :
    lookupFS (clientWrite f p i n st).2.fs r = lookupFS st.fs r := by
  unfold clientWrite
  dsimp only
  split
  · rfl
  · show lookupFS (growFile st.fs p n) r = lookupFS st.fs r
    unfold growFile
    split
    · exact lookupFS_setFS_ne _ _ _ _ hr
    · rfl

theorem clientChmod_ctl (f : Faults) (p : Path) (mode : Nat) (st : SyncState) :
    (clientChmod f p mode st).2.trace = st.trace ++ [Op.chmod p mode] ∧
    (clientChmod f p mode st).2.warnings = st.warnings ∧
    (clientChmod f p mode st).2.syncedSize = st.syncedSize ∧
    (clientChmod f p mode st).2.events = st.events := by
  unfold clientChmod
  dsimp only
  split
  · exact ⟨rfl, rfl, rfl, rfl⟩
  · split <;> exact ⟨rfl, rfl, rfl, rfl⟩

theorem clientChmod_fs_ne (f : Faults) (p : Path) (mode : Nat) (st : SyncState)
    (r : Path) (hr : r ≠ p) :
    lookupFS (clientChmod f p mode st).2.fs r = lookupFS st.fs r := by
  unfold clientChmod
  dsimp only
  split
  · rfl
  · split
    · exact lookupFS_setFS_ne _ _ _ _ hr
    · rfl

theorem clientChtimes_ctl (f : Faults) (p : Path) (a m : Int) (st : SyncState) :
    (clientChtimes f p a m st).2.trace = st.trace ++ [Op.chtimes p a m] ∧
    (clientChtimes f p a m st).2.warnings = st.warnings ∧
    (clientChtimes f p a m st).2.syncedSize = st.syncedSize ∧
    (clientChtimes f p a m st).2.events = st.events := by
  unfold clientChtimes
  dsimp only
  split
  · exact ⟨rfl, rfl, rfl, rfl⟩
  · split <;> exact ⟨rfl, rfl, rfl, rfl⟩

theorem clientChtimes_fs_ne (f : Faults) (p : Path) (a m : Int) (st : SyncState)
    (r : Path) (hr : r ≠ p) :
    lookupFS (clientChtimes f p a m st).2.fs r = lookupFS st.fs r := by
  unfold clientChtimes
  dsimp only
  split
  · rfl
  · split
    · exact lookupFS_setFS_ne _ _ _ _ hr
    · rfl

theorem clientRemoveDir_ctl (f : Faults) (p : Path) (st : SyncState) :
    (clientRemoveDir f p st).2.trace = st.trace ++ [Op.removeDir p] ∧
    (clientRemoveDir f p st).2.warnings = st.warnings ∧
    (clientRemoveDir f p st).2.syncedSize = st.syncedSize ∧
    (clientRemoveDir f p st).2.events = st.events := by
  unfold clientRemoveDir
  dsimp only
  split
  · exact ⟨rfl, rfl, rfl, rfl⟩
  · split
    · split <;> exact ⟨rfl, rfl, rfl, rfl⟩
    · exact ⟨rfl, rfl, rfl, rfl⟩

theorem clientRemoveDir_fs_ne (f : Faults) (p : Path) (st : SyncState)
    (r : Path) (hr : r ≠ p) :
    lookupFS (clientRemoveDir f p st).2.fs r = lookupFS st.fs r := by
  unfold clientRemoveDir
  dsimp only
  split
  · rfl
  · split
    · split
      · rfl
      · exact lookupFS_removeFS_ne _ _ _ hr
    · rfl

/-! ### Copy-loop lemmas -/

theorem copyChunks_frame (f : Faults) (p : Path) (cs : List Nat) (i : Nat) (st : SyncState) :
    ∃ dt de, (copyChunks f p cs i st).2.trace = st.trace ++ dt ∧
      (∀ op ∈ dt, ∃ n, op = Op.write p n) ∧
      (copyChunks f p cs i st).2.events = st.events ++ de ∧
      (copyChunks f p cs i st).2.warnings = st.warnings ∧
      st.syncedSize ≤ (copyChunks f p cs i st).2.syncedSize := by
  induction cs generalizing i st with
  | nil => exact ⟨[], [], by simp [copyChunks], by simp, by simp [copyChunks],
      rfl, Nat.le_refl _⟩
  | cons n rest ih =>
    rw [show copyChunks f p (n :: rest) i st =
      (match clientWrite f p i n st with
        | (Except.error e, st') => (Except.error ("failed to write to remote file: " ++ e), st')
        | (Except.ok _, st') =>
            copyChunks f p rest (i + 1)
              { st' with syncedSize := st'.syncedSize + n, events := st'.events ++ [n] }) from rfl]
    rcases hcw : clientWrite f p i n st with ⟨r, st2⟩
    have hctl := clientWrite_ctl f p i n st
    rw [hcw] at hctl
    obtain ⟨htr, hw, hs, he⟩ := hctl
    dsimp only at htr hw hs he
    cases r with
    | error e =>
        exact ⟨[Op.write p n], [], htr, by simp, by simpa using he, hw, Nat.le_of_eq hs.symm⟩
    | ok u =>
        obtain ⟨dt, de, ihtr, ihop, ihe, ihw, ihs⟩ :=
          ih (i + 1) { st2 with syncedSize := st2.syncedSize + n, events := st2.events ++ [n] }
        refine ⟨Op.write p n :: dt, n :: de, ?_, ?_, ?_, ?_, ?_⟩
        · rw [ihtr]; dsimp only; rw [htr]; simp
        · intro op hop
          cases hop with
          | head => exact ⟨n, rfl⟩
          | tail _ hop => exact ihop op hop
        · rw [ihe]; dsimp only; rw [he]; simp
        · rw [ihw]; exact hw
        · refine Nat.le_trans ?_ ihs
          show st.syncedSize ≤ st2.syncedSize + n
          omega

theorem copyChunks_fs_ne (f : Faults) (p : Path) (cs : List Nat) (i : Nat)
    (st : SyncState) (r : Path) (hr : r ≠ p) :
    lookupFS (copyChunks f p cs i st).2.fs r = lookupFS st.fs r := by
  induction cs generalizing i st with
  | nil => rfl
  | cons n rest ih =>
    show lookupFS
      (match clientWrite f p i n st with
        | (Except.error e, st') => (Except.error ("failed to write to remote file: " ++ e), st')
        | (Except.ok _, st') =>
            copyChunks f p rest (i + 1)
              { st' with syncedSize := st'.syncedSize + n, events := st'.events ++ [n] }).2.fs r
      = lookupFS st.fs r
    rcases hcw : clientWrite f p i n st with ⟨rr, st2⟩
    have hfs := clientWrite_fs_ne f p i n st r hr
    rw [hcw] at hfs
    cases rr with
    | error e => exact hfs
    | ok u => rw [ih (i + 1) _]; exact hfs

theorem copyChunks_ok (f : Faults) (p : Path) (cs : List Nat) (i : Nat)
    (st st' : SyncState) (h : copyChunks f p cs i st = (Except.ok (), st')) :
    st'.events = st.events ++ cs ∧ st'.syncedSize = st.syncedSize + cs.sum ∧
      st'.warnings = st.warnings := by
  induction cs generalizing i st with
  | nil =>
    cases h
    exact ⟨(List.append_nil _).symm, rfl, rfl⟩
  | cons n rest ih =>
    rw [show copyChunks f p (n :: rest) i st =
      (match clientWrite f p i n st with
        | (Except.error e, st') => (Except.error ("failed to write to remote file: " ++ e), st')
        | (Except.ok _, st') =>
            copyChunks f p rest (i + 1)
              { st' with syncedSize := st'.syncedSize + n, events := st'.events ++ [n] }) from rfl] at h
    rcases hcw : clientWrite f p i n st with ⟨rr, st2⟩
    rw [hcw] at h
    have hctl := clientWrite_ctl f p i n st
    rw [hcw] at hctl
    obtain ⟨htr, hw, hs, he⟩ := hctl
    cases rr with
    | error e => exact Except.noConfusion (congrArg Prod.fst h)
    | ok u =>
      obtain ⟨ihe, ihs, ihw⟩ := ih (i + 1) _ h
      refine ⟨?_, ?_, ?_⟩
      · rw [ihe]
        show (st2.events ++ [n]) ++ rest = st.events ++ (n :: rest)
        rw [he]; simp
      · rw [ihs]
        show (st2.syncedSize + n) + rest.sum = st.syncedSize + (n :: rest).sum
        rw [hs, List.sum_cons]; omega
      · rw [ihw]; exact hw

theorem copyChunks_ok_fs_self (f : Faults) (p : Path) (cs : List Nat) (i : Nat)
    (st st' : SyncState) (sz : Nat) (mt : Int) (md : Nat) (a : Int)
    (h : copyChunks f p cs i st = (Except.ok (), st'))
    (hfs : lookupFS st.fs p = some (RMeta.file sz mt md a)) :
    lookupFS st'.fs p = some (RMeta.file (sz + cs.sum) mt md a) := by
  induction cs generalizing i st sz with
  | nil => cases h; simpa using hfs
  | cons n rest ih =>
    rw [show copyChunks f p (n :: rest) i st =
      (match clientWrite f p i n st with
        | (Except.error e, st') => (Except.error ("failed to write to remote file: " ++ e), st')
        | (Except.ok _, st') =>
            copyChunks f p rest (i + 1)
              { st' with syncedSize := st'.syncedSize + n, events := st'.events ++ [n] }) from rfl] at h
    rcases hcw : clientWrite f p i n st with ⟨rr, st2⟩
    rw [hcw] at h
    cases rr with
    | error e => exact Except.noConfusion (congrArg Prod.fst h)
    | ok u =>
      have hst2 : st2.fs = growFile st.fs p n := by
        unfold clientWrite at hcw
        dsimp only at hcw
        split at hcw
        · exact Except.noConfusion (congrArg Prod.fst hcw)
        · cases hcw; rfl
      have hgrow : lookupFS st2.fs p = some (RMeta.file (sz + n) mt md a) := by
        rw [hst2]; unfold growFile; rw [hfs]; exact lookupFS_setFS_self _ _ _
      have hres := ih (i + 1)
        { st2 with syncedSize := st2.syncedSize + n, events := st2.events ++ [n] }
        (sz + n) h hgrow
      rw [hres, List.sum_cons, Nat.add_assoc]

/-! ### Chunk arithmetic -/

theorem chunksAux_sum (fuel : Nat) : ∀ n : Nat, n ≤ fuel → (chunksAux fuel n).sum = n := by
  induction fuel with
  | zero =>
    intro n hn
    have : n = 0 := Nat.le_zero.mp hn
    subst this
    rfl
  | succ fuel ih =>
    intro n hn
    show (if n = 0 then [] else if n ≤ 32768 then [n]
      else 32768 :: chunksAux fuel (n - 32768)).sum = n
    split
    · rename_i h0; subst h0; rfl
    · split
      · simp
      · rw [List.sum_cons, ih (n - 32768) (by omega)]
        omega

theorem chunks_sum (n : Nat) : (chunks n).sum = n :=
  chunksAux_sum n n (Nat.le_refl n)

/-! ### Pipeline-extension invariant: the upload pipeline only appends
non-destructive operations, only appends progress events, and never
decreases the shared byte counter. -/

def PipeExt (st st' : SyncState) : Prop :=
  (∃ dt, st'.trace = st.trace ++ dt ∧ ∀ op ∈ dt, op.isDestructive = false) ∧
  (∃ de, st'.events = st.events ++ de) ∧
  st.syncedSize ≤ st'.syncedSize

theorem PipeExt.rfl (st : SyncState) : PipeExt st st :=
  ⟨⟨[], by simp, by simp⟩, ⟨[], by simp⟩, Nat.le_refl _⟩

theorem PipeExt.trans {s1 s2 s3 : SyncState} (h1 : PipeExt s1 s2) (h2 : PipeExt s2 s3) :
    PipeExt s1 s3 := by
  obtain ⟨⟨dt1, ht1, hd1⟩, ⟨de1, he1⟩, hs1⟩ := h1
  obtain ⟨⟨dt2, ht2, hd2⟩, ⟨de2, he2⟩, hs2⟩ := h2
  refine ⟨⟨dt1 ++ dt2, ?_, ?_⟩, ⟨de1 ++ de2, ?_⟩, Nat.le_trans hs1 hs2⟩
  · rw [ht2, ht1, List.append_assoc]
  · intro op hop
    rcases List.mem_append.mp hop with h | h
    · exact hd1 op h
    · exact hd2 op h
  · rw [he2, he1, List.append_assoc]

theorem PipeExt.of_ctl {st st' : SyncState} (op : Op) (hop : op.isDestructive = false)
    (htr : st'.trace = st.trace ++ [op]) (hs : st'.syncedSize = st.syncedSize)
    (he : st'.events = st.events) : PipeExt st st' :=
  ⟨⟨[op], htr, by intro o ho; cases ho with
    | head => exact hop
    | tail _ hmem => cases hmem⟩,
   ⟨[], by simpa using he⟩, Nat.le_of_eq hs.symm⟩

theorem pipeExt_clientMkdirAll (f : Faults) (p : Path) (st : SyncState) :
    PipeExt st (clientMkdirAll f p st).2 := by
  obtain ⟨htr, _, hs, he⟩ := clientMkdirAll_ctl f p st
  exact PipeExt.of_ctl (Op.mkdirAll p) (by rfl) htr hs he

theorem pipeExt_clientCreate (f : Faults) (p : Path) (st : SyncState) :
    PipeExt st (clientCreate f p st).2 := by
  obtain ⟨htr, _, hs, he⟩ := clientCreate_ctl f p st
  exact PipeExt.of_ctl (Op.create p) (by rfl) htr hs he

theorem pipeExt_clientChmod (f : Faults) (p : Path) (mode : Nat) (st : SyncState) :
    PipeExt st (clientChmod f p mode st).2 := by
  obtain ⟨htr, _, hs, he⟩ := clientChmod_ctl f p mode st
  exact PipeExt.of_ctl (Op.chmod p mode) (by rfl) htr hs he

theorem pipeExt_clientChtimes (f : Faults) (p : Path) (a m : Int) (st : SyncState) :
    PipeExt st (clientChtimes f p a m st).2 := by
  obtain ⟨htr, _, hs, he⟩ := clientChtimes_ctl f p a m st
  exact PipeExt.of_ctl (Op.chtimes p a m) (by rfl) htr hs he

theorem pipeExt_copyChunks (f : Faults) (p : Path) (cs : List Nat) (i : Nat)
    (st : SyncState) : PipeExt st (copyChunks f p cs i st).2 := by
  obtain ⟨dt, de, htr, hops, he, _, hs⟩ := copyChunks_frame f p cs i st
  refine ⟨⟨dt, htr, ?_⟩, ⟨de, he⟩, hs⟩
  intro op hop
  obtain ⟨n, hn⟩ := hops op hop
  rw [hn]; rfl

theorem pipeExt_uploadFileContent (s : Syncer) (file : FileInfo) (base : Path)
    (st : SyncState) : PipeExt st (uploadFileContent s file base st).2 := by
  unfold uploadFileContent
  split
  · exact PipeExt.rfl st
  · rcases h1 : clientMkdirAll s.faults (base ++ file.relPath).dropLast st with ⟨r1, st1⟩
    have p1 := pipeExt_clientMkdirAll s.faults (base ++ file.relPath).dropLast st
    rw [h1] at p1
    cases r1 with
    | error e => exact p1
    | ok u =>
      dsimp only
      rcases h2 : clientCreate s.faults (base ++ file.relPath) st1 with ⟨r2, st2⟩
      have p2 := pipeExt_clientCreate s.faults (base ++ file.relPath) st1
      rw [h2] at p2
      cases r2 with
      | error e => exact p1.trans p2
      | ok u =>
        exact (p1.trans p2).trans
          (pipeExt_copyChunks s.faults (base ++ file.relPath) (chunks file.size) 0 st2)

theorem pipeExt_uploadFileMeta (s : Syncer) (file : FileInfo) (base : Path)
    (st : SyncState) : PipeExt st (uploadFileMeta s file base st) := by
  unfold uploadFileMeta
  dsimp only
  rcases h1 : clientChmod s.faults (base ++ file.relPath) 0o644 st with ⟨r1, st1⟩
  have p1 := pipeExt_clientChmod s.faults (base ++ file.relPath) 0o644 st
  rw [h1] at p1
  have step1 : ∀ {stm : SyncState}, PipeExt st1 stm → PipeExt st stm := fun h => p1.trans h
  cases r1 with
  | error e =>
    rcases h2 : clientChtimes s.faults (base ++ file.relPath) s.now file.modTime
      { st1 with warnings := st1.warnings ++
        ["Failed to set permissions for " ++ pathStr (base ++ file.relPath) ++ ": " ++ e] }
      with ⟨r2, st2⟩
    have p2 := pipeExt_clientChtimes s.faults (base ++ file.relPath) s.now file.modTime
      { st1 with warnings := st1.warnings ++
        ["Failed to set permissions for " ++ pathStr (base ++ file.relPath) ++ ": " ++ e] }
    rw [h2] at p2
    have pw : PipeExt st1
      { st1 with warnings := st1.warnings ++
        ["Failed to set permissions for " ++ pathStr (base ++ file.relPath) ++ ": " ++ e] } :=
      ⟨⟨[], by simp, by simp⟩, ⟨[], by simp⟩, Nat.le_refl _⟩
    cases r2 with
    | error e2 =>
      refine step1 ((pw.trans p2).trans ?_)
      exact ⟨⟨[], by simp, by simp⟩, ⟨[], by simp⟩, Nat.le_refl _⟩
    | ok u => exact step1 (pw.trans p2)
  | ok u =>
    rcases h2 : clientChtimes s.faults (base ++ file.relPath) s.now file.modTime st1
      with ⟨r2, st2⟩
    have p2 := pipeExt_clientChtimes s.faults (base ++ file.relPath) s.now file.modTime st1
    rw [h2] at p2
    cases r2 with
    | error e2 =>
      refine step1 (p2.trans ?_)
      exact ⟨⟨[], by simp, by simp⟩, ⟨[], by simp⟩, Nat.le_refl _⟩
    | ok u => exact step1 p2

theorem pipeExt_uploadFile (s : Syncer) (file : FileInfo) (base : Path)
    (st : SyncState) : PipeExt st (uploadFile s file base st).2 := by
  unfold uploadFile
  rcases h1 : uploadFileContent s file base st with ⟨r1, st1⟩
  have p1 := pipeExt_uploadFileContent s file base st
  rw [h1] at p1
  cases r1 with
  | error e => exact p1
  | ok u => exact p1.trans (pipeExt_uploadFileMeta s file base st1)

/-! ### uploadFile-layer store lemmas -/

theorem pfx_of_pfx_dropLast {r l : List String} (h : r <+: l.dropLast) : r <+: l :=
  h.trans ( List.dropLast_prefix l)

theorem clientCreate_ok_fs_self {f : Faults} {p : Path} {st st2 : SyncState}
    (h : clientCreate f p st = (Except.ok (), st2)) :
    lookupFS st2.fs p = some (RMeta.file 0 0 0 0) := by
  unfold clientCreate at h
  dsimp only at h
  split at h
  · exact Except.noConfusion (congrArg Prod.fst h)
  · split at h
    · exact Except.noConfusion (congrArg Prod.fst h)
    · cases h; exact lookupFS_setFS_self _ _ _

theorem uploadFileContent_fs_untouched (s : Syncer) (file : FileInfo) (base : Path)
    (st : SyncState) (r : Path) (hr : ¬ r <+: base ++ file.relPath) :
    lookupFS (uploadFileContent s file base st).2.fs r = lookupFS st.fs r := by
  have hnd : ¬ r <+: (base ++ file.relPath).dropLast :=
    fun hh => hr (pfx_of_pfx_dropLast hh)
  have hne : r ≠ base ++ file.relPath := fun he => hr (he ▸ List.prefix_rfl)
  unfold uploadFileContent
  split
  · rfl
  · rcases h1 : clientMkdirAll s.faults (base ++ file.relPath).dropLast st with ⟨r1, st1⟩
    have hfs1 := clientMkdirAll_fs_untouched s.faults (base ++ file.relPath).dropLast st r hnd
    rw [h1] at hfs1
    cases r1 with
    | error e => exact hfs1
    | ok u =>
      dsimp only
      rcases h2 : clientCreate s.faults (base ++ file.relPath) st1 with ⟨r2, st2⟩
      have hfs2 := clientCreate_fs_ne s.faults (base ++ file.relPath) st1 r hne
      rw [h2] at hfs2
      cases r2 with
      | error e => exact hfs2.trans hfs1
      | ok u =>
        exact (copyChunks_fs_ne s.faults (base ++ file.relPath) (chunks file.size) 0 st2
          r hne).trans (hfs2.trans hfs1)

theorem uploadFileContent_preserves_some (s : Syncer) (file : FileInfo) (base : Path)
    (st : SyncState) (r : Path) (m : RMeta) (hr : r ≠ base ++ file.relPath)
    (hm : lookupFS st.fs r = some m) :
    lookupFS (uploadFileContent s file base st).2.fs r = some m := by
  unfold uploadFileContent
  split
  · exact hm
  · rcases h1 : clientMkdirAll s.faults (base ++ file.relPath).dropLast st with ⟨r1, st1⟩
    have hfs1 := clientMkdirAll_preserves_some s.faults (base ++ file.relPath).dropLast st r m hm
    rw [h1] at hfs1
    cases r1 with
    | error e => exact hfs1
    | ok u =>
      dsimp only
      rcases h2 : clientCreate s.faults (base ++ file.relPath) st1 with ⟨r2, st2⟩
      have hfs2 := clientCreate_fs_ne s.faults (base ++ file.relPath) st1 r hr
      rw [h2] at hfs2
      cases r2 with
      | error e => exact hfs2.trans hfs1
      | ok u =>
        exact (copyChunks_fs_ne s.faults (base ++ file.relPath) (chunks file.size) 0 st2
          r hr).trans (hfs2.trans hfs1)

theorem uploadFileContent_ok_fs_self {s : Syncer} {file : FileInfo} {base : Path}
    {st st' : SyncState} (h : uploadFileContent s file base st = (Except.ok (), st')) :
    lookupFS st'.fs (base ++ file.relPath) = some (RMeta.file file.size 0 0 0) := by
  unfold uploadFileContent at h
  split at h
  · exact Except.noConfusion (congrArg Prod.fst h)
  · rcases h1 : clientMkdirAll s.faults (base ++ file.relPath).dropLast st with ⟨r1, st1⟩
    rw [h1] at h
    cases r1 with
    | error e => exact Except.noConfusion (congrArg Prod.fst h)
    | ok u =>
      dsimp only at h
      rcases h2 : clientCreate s.faults (base ++ file.relPath) st1 with ⟨r2, st2⟩
      rw [h2] at h
      cases r2 with
      | error e => exact Except.noConfusion (congrArg Prod.fst h)
      | ok u =>
        cases u
        have hcr := clientCreate_ok_fs_self h2
        have := copyChunks_ok_fs_self s.faults (base ++ file.relPath) (chunks file.size)
          0 st2 st' 0 0 0 0 h hcr
        rw [this, chunks_sum, Nat.zero_add]

theorem uploadFileContent_ok_ctl {s : Syncer} {file : FileInfo} {base : Path}
    {st st' : SyncState} (h : uploadFileContent s file base st = (Except.ok (), st')) :
    st'.events = st.events ++ chunks file.size ∧
      st'.syncedSize = st.syncedSize + file.size ∧
      st'.warnings = st.warnings := by
  unfold uploadFileContent at h
  split at h
  · exact Except.noConfusion (congrArg Prod.fst h)
  · rcases h1 : clientMkdirAll s.faults (base ++ file.relPath).dropLast st with ⟨r1, st1⟩
    rw [h1] at h
    have hc1 := clientMkdirAll_ctl s.faults (base ++ file.relPath).dropLast st
    rw [h1] at hc1
    obtain ⟨_, hw1, hs1, he1⟩ := hc1
    dsimp only at hw1 hs1 he1
    cases r1 with
    | error e => exact Except.noConfusion (congrArg Prod.fst h)
    | ok u =>
      dsimp only at h
      rcases h2 : clientCreate s.faults (base ++ file.relPath) st1 with ⟨r2, st2⟩
      rw [h2] at h
      have hc2 := clientCreate_ctl s.faults (base ++ file.relPath) st1
      rw [h2] at hc2
      obtain ⟨_, hw2, hs2, he2⟩ := hc2
      dsimp only at hw2 hs2 he2
      cases r2 with
      | error e => exact Except.noConfusion (congrArg Prod.fst h)
      | ok u =>
        obtain ⟨hce, hcs, hcw⟩ := copyChunks_ok s.faults (base ++ file.relPath)
          (chunks file.size) 0 st2 st' h
        refine ⟨?_, ?_, ?_⟩
        · rw [hce, he2, he1]
        · rw [hcs, hs2, hs1, chunks_sum]
        · rw [hcw, hw2, hw1]

/-- The warning logged when setting permissions fails with an injected
fault (syncer.go lines 368-370). -/
def chmodWarnMsg (p : Path) : String :=
  "Failed to set permissions for " ++ pathStr p ++ ": " ++ ("chmod failure at " ++ pathStr p)

/-- The warning logged when setting times fails with an injected fault
(syncer.go lines 372-374). -/
def chtimesWarnMsg (p : Path) : String :=
  "Failed to set modification time for " ++ pathStr p ++ ": " ++ ("chtimes failure at " ++ pathStr p)

theorem uploadFileMeta_ctl (s : Syncer) (file : FileInfo) (base : Path) (st : SyncState) :
    (uploadFileMeta s file base st).syncedSize = st.syncedSize ∧
    (uploadFileMeta s file base st).events = st.events ∧
    (uploadFileMeta s file base st).trace = st.trace ++
      [Op.chmod (base ++ file.relPath) 0o644,
       Op.chtimes (base ++ file.relPath) s.now file.modTime] := by
  unfold uploadFileMeta
  dsimp only
  rcases h1 : clientChmod s.faults (base ++ file.relPath) 0o644 st with ⟨r1, st1⟩
  have hc1 := clientChmod_ctl s.faults (base ++ file.relPath) 0o644 st
  rw [h1] at hc1
  obtain ⟨ht1, _, hs1, he1⟩ := hc1
  dsimp only at ht1 hs1 he1
  cases r1 with
  | error e =>
    rcases h2 : clientChtimes s.faults (base ++ file.relPath) s.now file.modTime
      { st1 with warnings := st1.warnings ++
        ["Failed to set permissions for " ++ pathStr (base ++ file.relPath) ++ ": " ++ e] }
      with ⟨r2, st2⟩
    have hc2 := clientChtimes_ctl s.faults (base ++ file.relPath) s.now file.modTime
      { st1 with warnings := st1.warnings ++
        ["Failed to set permissions for " ++ pathStr (base ++ file.relPath) ++ ": " ++ e] }
    rw [h2] at hc2
    obtain ⟨ht2, _, hs2, he2⟩ := hc2
    dsimp only at ht2 hs2 he2
    cases r2 with
    | error e2 =>
      refine ⟨by rw [hs2, hs1], by rw [he2, he1], ?_⟩
      rw [ht2, ht1]; simp
    | ok u =>
      refine ⟨by rw [hs2, hs1], by rw [he2, he1], ?_⟩
      rw [ht2, ht1]; simp
  | ok u =>
    rcases h2 : clientChtimes s.faults (base ++ file.relPath) s.now file.modTime st1
      with ⟨r2, st2⟩
    have hc2 := clientChtimes_ctl s.faults (base ++ file.relPath) s.now file.modTime st1
    rw [h2] at hc2
    obtain ⟨ht2, _, hs2, he2⟩ := hc2
    dsimp only at ht2 hs2 he2
    cases r2 with
    | error e2 =>
      refine ⟨by rw [hs2, hs1], by rw [he2, he1], ?_⟩
      rw [ht2, ht1]; simp
    | ok u =>
      refine ⟨by rw [hs2, hs1], by rw [he2, he1], ?_⟩
      rw [ht2, ht1]; simp

theorem uploadFileMeta_warnings (s : Syncer) (file : FileInfo) (base : Path)
    (st : SyncState) (sz : Nat) (mt : Int) (md : Nat) (a : Int)
    (hfile : lookupFS st.fs (base ++ file.relPath) = some (RMeta.file sz mt md a)) :
    (uploadFileMeta s file base st).warnings = st.warnings ++
      (if s.faults.chmodFail (base ++ file.relPath) then [chmodWarnMsg (base ++ file.relPath)] else []) ++
      (if s.faults.chtimesFail (base ++ file.relPath) then [chtimesWarnMsg (base ++ file.relPath)] else []) := by
  by_cases hcm : s.faults.chmodFail (base ++ file.relPath) <;>
    by_cases hct : s.faults.chtimesFail (base ++ file.relPath) <;>
      simp [uploadFileMeta, clientChmod, clientChtimes, hcm, hct, hfile,
        lookupFS_setFS_self, chmodWarnMsg, chtimesWarnMsg]

theorem uploadFileMeta_fs_self (s : Syncer) (file : FileInfo) (base : Path)
    (st : SyncState) (sz : Nat) (mt : Int) (md : Nat) (a : Int)
    (hfile : lookupFS st.fs (base ++ file.relPath) = some (RMeta.file sz mt md a))
    (hcm : s.faults.chmodFail (base ++ file.relPath) = false)
    (hct : s.faults.chtimesFail (base ++ file.relPath) = false) :
    lookupFS (uploadFileMeta s file base st).fs (base ++ file.relPath) =
      some (RMeta.file sz file.modTime 0o644 s.now) := by
  simp [uploadFileMeta, clientChmod, clientChtimes, hcm, hct, hfile, lookupFS_setFS_self]

theorem uploadFileMeta_fs_ne (s : Syncer) (file : FileInfo) (base : Path)
    (st : SyncState) (r : Path) (hr : r ≠ base ++ file.relPath) :
    lookupFS (uploadFileMeta s file base st).fs r = lookupFS st.fs r := by
  unfold uploadFileMeta
  dsimp only
  rcases h1 : clientChmod s.faults (base ++ file.relPath) 0o644 st with ⟨r1, st1⟩
  have hf1 := clientChmod_fs_ne s.faults (base ++ file.relPath) 0o644 st r hr
  rw [h1] at hf1
  cases r1 with
  | error e =>
    rcases h2 : clientChtimes s.faults (base ++ file.relPath) s.now file.modTime
      { st1 with warnings := st1.warnings ++
        ["Failed to set permissions for " ++ pathStr (base ++ file.relPath) ++ ": " ++ e] }
      with ⟨r2, st2⟩
    have hf2 := clientChtimes_fs_ne s.faults (base ++ file.relPath) s.now file.modTime
      { st1 with warnings := st1.warnings ++
        ["Failed to set permissions for " ++ pathStr (base ++ file.relPath) ++ ": " ++ e] } r hr
    rw [h2] at hf2
    cases r2 with
    | error e2 => exact hf2.trans hf1
    | ok u => exact hf2.trans hf1
  | ok u =>
    rcases h2 : clientChtimes s.faults (base ++ file.relPath) s.now file.modTime st1
      with ⟨r2, st2⟩
    have hf2 := clientChtimes_fs_ne s.faults (base ++ file.relPath) s.now file.modTime st1 r hr
    rw [h2] at hf2
    cases r2 with
    | error e2 => exact hf2.trans hf1
    | ok u => exact hf2.trans hf1

theorem uploadFile_ok_iff (s : Syncer) (file : FileInfo) (base : Path) (st : SyncState) :
    (uploadFile s file base st).1 = Except.ok () ↔
      (uploadFileContent s file base st).1 = Except.ok () := by
  unfold uploadFile
  rcases h1 : uploadFileContent s file base st with ⟨r1, st1⟩
  cases r1 with
  | error e => simp
  | ok u => cases u; simp

theorem uploadFile_fs_untouched (s : Syncer) (file : FileInfo) (base : Path)
    (st : SyncState) (r : Path) (hr : ¬ r <+: base ++ file.relPath) :
    lookupFS (uploadFile s file base st).2.fs r = lookupFS st.fs r := by
  have hne : r ≠ base ++ file.relPath := fun he => hr (he ▸ List.prefix_rfl)
  unfold uploadFile
  rcases h1 : uploadFileContent s file base st with ⟨r1, st1⟩
  have hf1 := uploadFileContent_fs_untouched s file base st r hr
  rw [h1] at hf1
  cases r1 with
  | error e => exact hf1
  | ok u => exact (uploadFileMeta_fs_ne s file base st1 r hne).trans hf1

theorem uploadFile_preserves_some (s : Syncer) (file : FileInfo) (base : Path)
    (st : SyncState) (r : Path) (m : RMeta) (hr : r ≠ base ++ file.relPath)
    (hm : lookupFS st.fs r = some m) :
    lookupFS (uploadFile s file base st).2.fs r = some m := by
  unfold uploadFile
  rcases h1 : uploadFileContent s file base st with ⟨r1, st1⟩
  have hf1 := uploadFileContent_preserves_some s file base st r m hr hm
  rw [h1] at hf1
  cases r1 with
  | error e => exact hf1
  | ok u => exact (uploadFileMeta_fs_ne s file base st1 r hr).trans hf1

theorem uploadFile_ok_ctl {s : Syncer} {file : FileInfo} {base : Path}
    {st st' : SyncState} (h : uploadFile s file base st = (Except.ok (), st')) :
    st'.events = st.events ++ chunks file.size ∧
      st'.syncedSize = st.syncedSize + file.size := by
  unfold uploadFile at h
  rcases h1 : uploadFileContent s file base st with ⟨r1, st1⟩
  rw [h1] at h
  cases r1 with
  | error e => exact Except.noConfusion (congrArg Prod.fst h)
  | ok u =>
    cases u
    obtain ⟨he1, hs1, _⟩ := uploadFileContent_ok_ctl h1
    obtain ⟨hms, hme, _⟩ := uploadFileMeta_ctl s file base st1
    have hst' : st' = uploadFileMeta s file base st1 := (congrArg Prod.snd h).symm
    subst hst'
    exact ⟨hme.trans he1, hms.trans hs1⟩

/-! ### Worker and pipeline lemmas -/

theorem workerStep_errs_shift (s : Syncer) (base : Path) (st : SyncState)
    (es : List String) (file : FileInfo) :
    workerStep s base (st, es) file =
      ((workerStep s base (st, []) file).1, es ++ (workerStep s base (st, []) file).2) := by
  unfold workerStep
  dsimp only
  split
  · rcases h1 : clientMkdirAll s.faults (base ++ file.relPath) st with ⟨r1, st1⟩
    cases r1 <;> simp
  · rcases h1 : uploadFile s file base st with ⟨r1, st1⟩
    cases r1 <;> simp

theorem workerStep_fs_untouched (s : Syncer) (base : Path) (st : SyncState)
    (es : List String) (file : FileInfo) (r : Path) (hr : ¬ r <+: base ++ file.relPath) :
    lookupFS (workerStep s base (st, es) file).1.fs r = lookupFS st.fs r := by
  unfold workerStep
  dsimp only
  split
  · rcases h1 : clientMkdirAll s.faults (base ++ file.relPath) st with ⟨r1, st1⟩
    have hf1 := clientMkdirAll_fs_untouched s.faults (base ++ file.relPath) st r hr
    rw [h1] at hf1
    cases r1 with
    | error e => exact hf1
    | ok u => exact hf1
  · rcases h1 : uploadFile s file base st with ⟨r1, st1⟩
    have hf1 := uploadFile_fs_untouched s file base st r hr
    rw [h1] at hf1
    cases r1 with
    | error e => exact hf1
    | ok u => exact hf1

theorem workerStep_preserves_some (s : Syncer) (base : Path) (st : SyncState)
    (es : List String) (file : FileInfo) (r : Path) (m : RMeta)
    (hr : file.isDir = false → r ≠ base ++ file.relPath)
    (hm : lookupFS st.fs r = some m) :
    lookupFS (workerStep s base (st, es) file).1.fs r = some m := by
  unfold workerStep
  dsimp only
  split
  · rcases h1 : clientMkdirAll s.faults (base ++ file.relPath) st with ⟨r1, st1⟩
    have hf1 := clientMkdirAll_preserves_some s.faults (base ++ file.relPath) st r m hm
    rw [h1] at hf1
    cases r1 with
    | error e => exact hf1
    | ok u => exact hf1
  · rename_i hdir
    have hne : r ≠ base ++ file.relPath := hr (by
      cases hd : file.isDir with
      | true => exact absurd hd hdir
      | false => rfl)
    rcases h1 : uploadFile s file base st with ⟨r1, st1⟩
    have hf1 := uploadFile_preserves_some s file base st r m hne hm
    rw [h1] at hf1
    cases r1 with
    | error e => exact hf1
    | ok u => exact hf1

theorem pipeExt_workerStep (s : Syncer) (base : Path) (st : SyncState)
    (es : List String) (file : FileInfo) :
    PipeExt st (workerStep s base (st, es) file).1 := by
  unfold workerStep
  dsimp only
  split
  · rcases h1 : clientMkdirAll s.faults (base ++ file.relPath) st with ⟨r1, st1⟩
    have p1 := pipeExt_clientMkdirAll s.faults (base ++ file.relPath) st
    rw [h1] at p1
    cases r1 with
    | error e => exact p1
    | ok u => exact p1
  · rcases h1 : uploadFile s file base st with ⟨r1, st1⟩
    have p1 := pipeExt_uploadFile s file base st
    rw [h1] at p1
    cases r1 with
    | error e => exact p1
    | ok u => exact p1

theorem workerStep_noerr (s : Syncer) (base : Path) (st : SyncState) (file : FileInfo)
    (h : (workerStep s base (st, []) file).2 = []) :
    (workerStep s base (st, []) file).1.events =
        st.events ++ (if file.isDir then [] else chunks file.size) ∧
      (workerStep s base (st, []) file).1.syncedSize =
        st.syncedSize + (if file.isDir then 0 else file.size) := by
  unfold workerStep at h ⊢
  dsimp only at h ⊢
  split at h <;> rename_i hdir
  · have hctl := clientMkdirAll_ctl s.faults (base ++ file.relPath) st
    obtain ⟨_, _, hs1, he1⟩ := hctl
    generalize hcm : clientMkdirAll s.faults (base ++ file.relPath) st = res at h hs1 he1 ⊢
    obtain ⟨r1, st1⟩ := res
    cases r1 with
    | error e => simp at h
    | ok u => simp only [hdir, if_true]; exact ⟨by simpa using he1, by simpa using hs1⟩
  · generalize hup : uploadFile s file base st = res at h ⊢
    obtain ⟨r1, st1⟩ := res
    cases r1 with
    | error e => simp at h
    | ok u =>
      cases u
      obtain ⟨he1, hs1⟩ := uploadFile_ok_ctl hup
      have hdirf : file.isDir = false := by
        cases hd : file.isDir with
        | true => exact absurd hd hdir
        | false => rfl
      simp only [hdirf, if_false, Bool.false_eq_true]
      exact ⟨he1, hs1⟩

theorem foldl_workerStep_shift (s : Syncer) (base : Path) (t : List FileInfo) :
    ∀ (st : SyncState) (es : List String),
    t.foldl (workerStep s base) (st, es) =
      ((t.foldl (workerStep s base) (st, [])).1,
        es ++ (t.foldl (workerStep s base) (st, [])).2) := by
  induction t with
  | nil => intro st es; simp
  | cons f t ih =>
    intro st es
    rw [List.foldl_cons, List.foldl_cons]
    rw [workerStep_errs_shift s base st es f]
    rcases hws : workerStep s base (st, []) f with ⟨st1, e1⟩
    rw [ih st1 (es ++ e1), ih st1 e1]
    simp

theorem uploadFilesRun_append (s : Syncer) (xs ys : List FileInfo) (base : Path)
    (st : SyncState) :
    uploadFilesRun s (xs ++ ys) base st =
      ((uploadFilesRun s ys base (uploadFilesRun s xs base st).1).1,
        (uploadFilesRun s xs base st).2 ++
          (uploadFilesRun s ys base (uploadFilesRun s xs base st).1).2) := by
  unfold uploadFilesRun
  rw [List.foldl_append]
  rcases hx : xs.foldl (workerStep s base) (st, []) with ⟨stx, ex⟩
  rw [foldl_workerStep_shift s base ys stx ex]

theorem uploadFilesRun_fs_untouched (s : Syncer) (files : List FileInfo) (base : Path)
    (st : SyncState) (r : Path) (hr : ∀ f ∈ files, ¬ r <+: base ++ f.relPath) :
    lookupFS (uploadFilesRun s files base st).1.fs r = lookupFS st.fs r := by
  induction files generalizing st with
  | nil => rfl
  | cons f t ih =>
    unfold uploadFilesRun
    rw [List.foldl_cons]
    rcases hws : workerStep s base (st, []) f with ⟨st1, e1⟩
    rw [foldl_workerStep_shift s base t st1 e1]
    have hf1 := workerStep_fs_untouched s base st [] f r (hr f (List.mem_cons_self f t))
    rw [hws] at hf1
    have ht := ih st1 (fun g hg => hr g (List.mem_cons_of_mem f hg))
    exact ht.trans hf1

theorem uploadFilesRun_preserves_some (s : Syncer) (files : List FileInfo) (base : Path)
    (st : SyncState) (r : Path) (m : RMeta)
    (hr : ∀ f ∈ files, f.isDir = false → r ≠ base ++ f.relPath)
    (hm : lookupFS st.fs r = some m) :
    lookupFS (uploadFilesRun s files base st).1.fs r = some m := by
  induction files generalizing st with
  | nil => exact hm
  | cons f t ih =>
    unfold uploadFilesRun
    rw [List.foldl_cons]
    rcases hws : workerStep s base (st, []) f with ⟨st1, e1⟩
    rw [foldl_workerStep_shift s base t st1 e1]
    have hf1 := workerStep_preserves_some s base st [] f r m
      (hr f (List.mem_cons_self f t)) hm
    rw [hws] at hf1
    exact ih st1 (fun g hg => hr g (List.mem_cons_of_mem f hg)) hf1

theorem pipeExt_uploadFilesRun (s : Syncer) (files : List FileInfo) (base : Path)
    (st : SyncState) : PipeExt st (uploadFilesRun s files base st).1 := by
  induction files generalizing st with
  | nil => exact PipeExt.rfl st
  | cons f t ih =>
    unfold uploadFilesRun
    rw [List.foldl_cons]
    rcases hws : workerStep s base (st, []) f with ⟨st1, e1⟩
    rw [foldl_workerStep_shift s base t st1 e1]
    have p1 := pipeExt_workerStep s base st [] f
    rw [hws] at p1
    exact PipeExt.trans p1 (ih st1)

theorem uploadFilesRun_noerr (s : Syncer) (files : List FileInfo) (base : Path)
    (st : SyncState) (h : (uploadFilesRun s files base st).2 = []) :
    (uploadFilesRun s files base st).1.events = st.events ++
        (files.filter (fun f => !f.isDir)).flatMap (fun f => chunks f.size) ∧
      (uploadFilesRun s files base st).1.syncedSize = st.syncedSize +
        ((files.filter (fun f => !f.isDir)).map FileInfo.size).sum := by
  induction files generalizing st with
  | nil => exact ⟨by simp [uploadFilesRun], by simp [uploadFilesRun]⟩
  | cons f t ih =>
    unfold uploadFilesRun at h ⊢
    rw [List.foldl_cons] at h ⊢
    rcases hws : workerStep s base (st, []) f with ⟨st1, e1⟩
    rw [hws] at h
    rw [foldl_workerStep_shift s base t st1 e1] at h ⊢
    have he1 : e1 = [] := by
      rcases List.append_eq_nil.mp h with ⟨h1, _⟩
      exact h1
    subst he1
    have hnoerr : (workerStep s base (st, []) f).2 = [] := by rw [hws]
    obtain ⟨hev, hsy⟩ := workerStep_noerr s base st f hnoerr
    rw [hws] at hev hsy
    have ht : (uploadFilesRun s t base st1).2 = [] := by
      rcases List.append_eq_nil.mp h with ⟨_, h2⟩
      exact h2
    obtain ⟨ihe, ihs⟩ := ih st1 ht
    constructor
    · rw [show ((t.foldl (workerStep s base) (st1, [])).1,
          ([] : List String) ++ (t.foldl (workerStep s base) (st1, [])).2).1.events
          = (uploadFilesRun s t base st1).1.events from rfl]
      rw [ihe, hev]
      cases hd : f.isDir with
      | true => simp [List.filter_cons, hd]
      | false => simp [List.filter_cons, hd]
    · rw [show ((t.foldl (workerStep s base) (st1, [])).1,
          ([] : List String) ++ (t.foldl (workerStep s base) (st1, [])).2).1.syncedSize
          = (uploadFilesRun s t base st1).1.syncedSize from rfl]
      rw [ihs, hsy]
      cases hd : f.isDir with
      | true => simp [List.filter_cons, hd]
      | false => simp [List.filter_cons, hd]; omega

/-! ### Sync-strategy-level lemmas -/

theorem uploadFiles_run (s : Syncer) (files : List FileInfo) (base : Path)
    (st : SyncState) :
    (uploadFiles s files base st).2 =
      (uploadFilesRun s (if s.workers ≥ 1 then files else []) base st).1 := by
  unfold uploadFiles
  dsimp only
  split <;> rfl

theorem uploadFiles_ok_iff (s : Syncer) (files : List FileInfo) (base : Path)
    (st : SyncState) :
    (uploadFiles s files base st).1 = Except.ok () ↔
      (uploadFilesRun s (if s.workers ≥ 1 then files else []) base st).2 = [] := by
  unfold uploadFiles
  dsimp only
  rcases hr : (uploadFilesRun s (if s.workers ≥ 1 then files else []) base st).2 with _ | ⟨e, es⟩
  · simp
  · simp

/-- The staging directory never lies on the remote target path: paths
extending the target are disjoint from paths under the staging root. -/
theorem remote_not_under_temp (s : Syncer) (hpre : ¬ s.remotePath <+: tempRemotePath s)
    (q : Path) (hq : s.remotePath <+: q) (r : Path) : ¬ q <+: tempRemotePath s ++ r := by
  intro hqt
  have h1 : s.remotePath <+: tempRemotePath s ++ r := hq.trans hqt
  by_cases hnl : s.remotePath = []
  · exact hpre (by rw [hnl]; exact List.nil_prefix)
  · have hlen0 : s.remotePath.length ≠ 0 := fun h => hnl (List.length_eq_zero.mp h)
    have hlen : s.remotePath.length = (tempRemotePath s).length := by
      unfold tempRemotePath
      rw [List.length_append, List.length_dropLast]
      simp
      omega
    have heq : s.remotePath = tempRemotePath s := by
      have h2 := List.prefix_iff_eq_take.mp h1
      rw [hlen] at h2
      rw [h2, List.take_left]
    exact hpre (heq ▸ List.prefix_rfl)

theorem pipeExt_uploadFiles (s : Syncer) (files : List FileInfo) (base : Path)
    (st : SyncState) : PipeExt st (uploadFiles s files base st).2 := by
  rw [uploadFiles_run]
  exact pipeExt_uploadFilesRun s _ base st

theorem uploadFiles_fs_untouched (s : Syncer) (files : List FileInfo) (base : Path)
    (st : SyncState) (r : Path) (hr : ∀ f ∈ files, ¬ r <+: base ++ f.relPath) :
    lookupFS (uploadFiles s files base st).2.fs r = lookupFS st.fs r := by
  rw [uploadFiles_run]
  refine uploadFilesRun_fs_untouched s _ base st r ?_
  intro f hf
  split at hf
  · exact hr f hf
  · cases hf

theorem uploadFiles_preserves_some (s : Syncer) (files : List FileInfo) (base : Path)
    (st : SyncState) (r : Path) (m : RMeta)
    (hr : ∀ f ∈ files, f.isDir = false → r ≠ base ++ f.relPath)
    (hm : lookupFS st.fs r = some m) :
    lookupFS (uploadFiles s files base st).2.fs r = some m := by
  rw [uploadFiles_run]
  refine uploadFilesRun_preserves_some s _ base st r m ?_ hm
  intro f hf
  split at hf
  · exact hr f hf
  · cases hf

theorem incrementalSync_preserves_some (s : Syncer) (files : List FileInfo)
    (st : SyncState) (r : Path) (m : RMeta)
    (hr : ∀ f ∈ files, f.isDir = false → r ≠ s.remotePath ++ f.relPath)
    (hm : lookupFS st.fs r = some m) :
    lookupFS (incrementalSync s files st).2.fs r = some m := by
  unfold incrementalSync
  rcases h1 : clientMkdirAll s.faults s.remotePath st with ⟨r1, st1⟩
  have hf1 := clientMkdirAll_preserves_some s.faults s.remotePath st r m hm
  rw [h1] at hf1
  cases r1 with
  | error e => exact hf1
  | ok u =>
    dsimp only
    rcases h2 : uploadFiles s files s.remotePath st1 with ⟨r2, st2⟩
    have hf2 := uploadFiles_preserves_some s files s.remotePath st1 r m hr hf1
    rw [h2] at hf2
    cases r2 with
    | error e => exact hf2
    | ok u => exact hf2

theorem incrementalSync_pipeExt (s : Syncer) (files : List FileInfo) (st : SyncState) :
    PipeExt st (incrementalSync s files st).2 := by
  unfold incrementalSync
  rcases h1 : clientMkdirAll s.faults s.remotePath st with ⟨r1, st1⟩
  have p1 := pipeExt_clientMkdirAll s.faults s.remotePath st
  rw [h1] at p1
  cases r1 with
  | error e => exact p1
  | ok u =>
    dsimp only
    rcases h2 : uploadFiles s files s.remotePath st1 with ⟨r2, st2⟩
    have p2 := pipeExt_uploadFiles s files s.remotePath st1
    rw [h2] at p2
    cases r2 with
    | error e => exact p1.trans p2
    | ok u => exact p1.trans p2

theorem sum_flatMap_chunks (fl : List FileInfo) :
    ((fl.flatMap (fun f => chunks f.size)).sum) = (fl.map FileInfo.size).sum := by
  induction fl with
  | nil => rfl
  | cons a t ih => simp [List.flatMap_cons, ih, chunks_sum]

/-! ### Claim C1 -/

/-- Concrete incremental scenario for C1: the remote already holds
`data/a.txt` with exactly the local size and modification time. -/
def c1Syncer : Syncer :=
  ⟨["local"], ["data"], "incremental", 4, noFaults, "t", "b", 777⟩

def c1Entry : FileInfo := ⟨["local", "a.txt"], ["a.txt"], 10, 100, false⟩

def c1FS : RemoteFS := [(["data"], RMeta.dir), (["data", "a.txt"], RMeta.file 10 100 420 0)]

/-- C1: the claim says a file entry is uploaded if and only if remote
metadata for its relative path is missing or differs in size or
modification time, and is otherwise skipped.  The code has no such
decision: at an input where the remote metadata is identical (the policy
of the spec returns `false`), `incrementalSync` still creates and writes the
remote file and transfers its 10 bytes.  This evaluates the code at that
failing input. -/
theorem c1_incremental_ignores_change_policy :
    specShouldUpload c1Entry (lookupFS c1FS (c1Syncer.remotePath ++ c1Entry.relPath)) = false ∧
    Op.create (c1Syncer.remotePath ++ c1Entry.relPath) ∈
      (incrementalSync c1Syncer [c1Entry] (initState c1FS)).2.trace ∧
    Op.write (c1Syncer.remotePath ++ c1Entry.relPath) 10 ∈
      (incrementalSync c1Syncer [c1Entry] (initState c1FS)).2.trace ∧
    (incrementalSync c1Syncer [c1Entry] (initState c1FS)).2.syncedSize = 10 ∧
    (incrementalSync c1Syncer [c1Entry] (initState c1FS)).1 = Except.ok () := by
  refine ⟨by decide, by decide, by decide, by decide, by decide⟩

/-! ### Claim C2 -/

def c2Syncer : Syncer :=
  ⟨["local"], ["data"], "incremental", 2, noFaults, "t", "b", 777⟩

def c2Entry : FileInfo := ⟨["local", "a.txt"], ["a.txt"], 10, 100, false⟩

/-- The remote store left behind by a first incremental run from an empty
remote; nothing changes between the runs. -/
def c2FS1 : RemoteFS := (incrementalSync c2Syncer [c2Entry] (initState [])).2.fs

/-- C2: the claim says a second incremental run over an unchanged tree
uploads zero files and transfers zero bytes.  In the code the second run
re-uploads everything: starting from the remote store produced by the
first run (which holds an identical `data/a.txt`), the second run again
writes the file and transfers 10 bytes, not 0. -/
theorem c2_second_run_retransfers :
    (incrementalSync c2Syncer [c2Entry] (initState c2FS1)).2.syncedSize = 10 ∧
    Op.write (c2Syncer.remotePath ++ c2Entry.relPath) 10 ∈
      (incrementalSync c2Syncer [c2Entry] (initState c2FS1)).2.trace ∧
    (incrementalSync c2Syncer [c2Entry] (initState c2FS1)).1 = Except.ok () := by
  refine ⟨by decide, by decide, by decide⟩

/-! ### Claim C5 -/

/-- C5: incremental sync never issues a rename or a directory removal, and
every pre-existing remote entry whose path is not the remote location of a
local file entry keeps exactly its old metadata — remote entries with no
corresponding local entry are left untouched. -/
theorem c5_incremental_additive_only (s : Syncer) (files : List FileInfo) (fs : RemoteFS) :
    (∀ o n, Op.rename o n ∉ (incrementalSync s files (initState fs)).2.trace) ∧
    (∀ p, Op.removeDir p ∉ (incrementalSync s files (initState fs)).2.trace) ∧
    (∀ q m, lookupFS fs q = some m →
      (∀ f ∈ files, f.isDir = false → q ≠ s.remotePath ++ f.relPath) →
      lookupFS (incrementalSync s files (initState fs)).2.fs q = some m) := by
  obtain ⟨⟨dt, htr, hnd⟩, _, _⟩ := incrementalSync_pipeExt s files (initState fs)
  have htr' : (incrementalSync s files (initState fs)).2.trace = dt := by
    simpa [initState] using htr
  refine ⟨?_, ?_, ?_⟩
  · intro o n hmem
    rw [htr'] at hmem
    have := hnd _ hmem
    simp [Op.isDestructive] at this
  · intro p hmem
    rw [htr'] at hmem
    have := hnd _ hmem
    simp [Op.isDestructive] at this
  · intro q m hm hq
    exact incrementalSync_preserves_some s files (initState fs) q m hq hm

def c5Syncer : Syncer := ⟨["local"], ["data"], "incremental", 1, noFaults, "t", "b", 50⟩

def c5Files : List FileInfo :=
  [⟨["local", "sub"], ["sub"], 0, 0, true⟩, ⟨["local", "a.txt"], ["a.txt"], 4, 9, false⟩]

def c5FS : RemoteFS := [(["data"], RMeta.dir), (["data", "keep.txt"], RMeta.file 3 7 420 0)]

theorem c5_incremental_additive_only_witness :
    lookupFS (incrementalSync c5Syncer c5Files (initState c5FS)).2.fs ["data", "keep.txt"] =
      some (RMeta.file 3 7 420 0) :=
  (c5_incremental_additive_only c5Syncer c5Files c5FS).2.2 ["data", "keep.txt"]
    (RMeta.file 3 7 420 0) (by decide) (by decide)

/-! ### Claim C6 -/

/-- C6: the upload pipeline collects worker errors without stopping —
processing a concatenation of entry lists processes the first list and
then the second regardless of the errors of the first, and the collected
error lists concatenate — and the pipeline call succeeds exactly when the
error collection is empty after all entries are drained. -/
theorem c6_error_aggregation (s : Syncer) (base : Path) (st : SyncState) :
    (∀ xs ys, uploadFilesRun s (xs ++ ys) base st =
      ((uploadFilesRun s ys base (uploadFilesRun s xs base st).1).1,
        (uploadFilesRun s xs base st).2 ++
          (uploadFilesRun s ys base (uploadFilesRun s xs base st).1).2)) ∧
    (∀ files, (uploadFiles s files base st).1 = Except.ok () ↔
      (uploadFilesRun s (if s.workers ≥ 1 then files else []) base st).2 = []) ∧
    (∀ files, (uploadFiles s files base st).2 =
      (uploadFilesRun s (if s.workers ≥ 1 then files else []) base st).1) :=
  ⟨fun xs ys => uploadFilesRun_append s xs ys base st,
   fun files => uploadFiles_ok_iff s files base st,
   fun files => uploadFiles_run s files base st⟩

/-! ### Claim C8 -/

/-- C8: when every transfer succeeds (empty error collection), the chunk
increments recorded across the run are exactly the concatenation of each
chunk sizes of each uploaded file — each file counted once — and the final value
of the shared byte counter equals the sum of the sizes of the uploaded
file entries; any reordering of the increments (any worker interleaving)
has the same sum; and along the run the counter never decreases. -/
theorem c8_progress_counter (s : Syncer) (files : List FileInfo) (base : Path) (fs : RemoteFS) :
    ((uploadFilesRun s files base (initState fs)).2 = [] →
      (uploadFilesRun s files base (initState fs)).1.events =
        (files.filter (fun f => !f.isDir)).flatMap (fun f => chunks f.size) ∧
      (uploadFilesRun s files base (initState fs)).1.syncedSize =
        ((files.filter (fun f => !f.isDir)).map FileInfo.size).sum ∧
      (∀ l : List Nat, List.Perm l (uploadFilesRun s files base (initState fs)).1.events →
        l.sum = (uploadFilesRun s files base (initState fs)).1.syncedSize)) ∧
    (∀ xs ys, files = xs ++ ys →
      (uploadFilesRun s xs base (initState fs)).1.syncedSize ≤
        (uploadFilesRun s files base (initState fs)).1.syncedSize) := by
  constructor
  · intro h
    obtain ⟨hev, hsy⟩ := uploadFilesRun_noerr s files base (initState fs) h
    have hev' : (uploadFilesRun s files base (initState fs)).1.events =
        (files.filter (fun f => !f.isDir)).flatMap (fun f => chunks f.size) := by
      simpa [initState] using hev
    have hsy' : (uploadFilesRun s files base (initState fs)).1.syncedSize =
        ((files.filter (fun f => !f.isDir)).map FileInfo.size).sum := by
      simpa [initState] using hsy
    refine ⟨hev', hsy', ?_⟩
    intro l hperm
    rw [hperm.sum_eq, hev', sum_flatMap_chunks, hsy']
  · intro xs ys hsplit
    subst hsplit
    rw [uploadFilesRun_append]
    obtain ⟨_, _, hle⟩ :=
      pipeExt_uploadFilesRun s ys base (uploadFilesRun s xs base (initState fs)).1
    exact hle

def c8Syncer : Syncer := ⟨["local"], ["data"], "incremental", 1, noFaults, "t", "b", 50⟩

def c8Files : List FileInfo :=
  [⟨["local", "sub"], ["sub"], 0, 0, true⟩,
   ⟨["local", "a.txt"], ["a.txt"], 10, 100, false⟩,
   ⟨["local", "sub", "b.txt"], ["sub", "b.txt"], 5, 200, false⟩]

theorem c8_progress_counter_witness :
    (uploadFilesRun c8Syncer c8Files ["data"] (initState [])).1.syncedSize =
      ((c8Files.filter (fun f => !f.isDir)).map FileInfo.size).sum :=
  ((c8_progress_counter c8Syncer c8Files ["data"] []).1 (by decide)).2.1

/-! ### Cleanup and swap helpers -/

/-- The error text produced by a fault-injected rename. -/
def renameErrMsg (o n : Path) : String :=
  "rename failure " ++ pathStr o ++ " to " ++ pathStr n

/-- A transfer operation. -/
def Op.isWrite : Op → Bool
  | Op.write _ _ => true
  | _ => false

theorem cleanupTemp_trace (s : Syncer) (st : SyncState) :
    (cleanupTemp s st).trace = st.trace ++ [Op.removeDir (tempRemotePath s)] := by
  unfold cleanupTemp
  obtain ⟨htr, _, _, _⟩ := clientRemoveDir_ctl s.faults (tempRemotePath s) st
  rcases h1 : clientRemoveDir s.faults (tempRemotePath s) st with ⟨r1, st1⟩
  rw [h1] at htr
  cases r1 with
  | error e => exact htr
  | ok u => exact htr

theorem cleanupTemp_fs_ne (s : Syncer) (st : SyncState) (r : Path)
    (hr : r ≠ tempRemotePath s) :
    lookupFS (cleanupTemp s st).fs r = lookupFS st.fs r := by
  unfold cleanupTemp
  have hfs := clientRemoveDir_fs_ne s.faults (tempRemotePath s) st r hr
  rcases h1 : clientRemoveDir s.faults (tempRemotePath s) st with ⟨r1, st1⟩
  rw [h1] at hfs
  cases r1 with
  | error e => exact hfs
  | ok u => exact hfs

/-! ### Claim C7 -/

/-- C7: when the content copy of a file succeeds, the upload reports
success no matter whether setting the remote permissions or times fails;
each metadata failure only appends its warning to the log. -/
theorem c7_metadata_failures_nonfatal (s : Syncer) (file : FileInfo) (base : Path)
    (st st' : SyncState) (h : uploadFileContent s file base st = (Except.ok (), st')) :
    (uploadFile s file base st).1 = Except.ok () ∧
    (uploadFile s file base st).2.warnings = st.warnings ++
      (if s.faults.chmodFail (base ++ file.relPath)
        then [chmodWarnMsg (base ++ file.relPath)] else []) ++
      (if s.faults.chtimesFail (base ++ file.relPath)
        then [chtimesWarnMsg (base ++ file.relPath)] else []) := by
  have hfile := uploadFileContent_ok_fs_self h
  obtain ⟨_, _, hw⟩ := uploadFileContent_ok_ctl h
  have h2 : uploadFile s file base st = (Except.ok (), uploadFileMeta s file base st') := by
    unfold uploadFile
    rw [h]
  refine ⟨by rw [h2], ?_⟩
  rw [h2]
  rw [uploadFileMeta_warnings s file base st' file.size 0 0 0 hfile, hw]

def c7Syncer : Syncer :=
  ⟨["local"], ["data"], "incremental", 1,
   ⟨fun _ => false, fun _ => false, fun _ => false, fun _ _ => false,
    fun p => decide (p = ["data", "a.txt"]), fun p => decide (p = ["data", "a.txt"]),
    fun _ _ => false, fun _ => false⟩,
   "t", "b", 777⟩

def c7Entry : FileInfo := ⟨["local", "a.txt"], ["a.txt"], 10, 100, false⟩

theorem c7_metadata_failures_nonfatal_witness :
    (uploadFile c7Syncer c7Entry ["data"] (initState [(["data"], RMeta.dir)])).1 =
      Except.ok () :=
  (c7_metadata_failures_nonfatal c7Syncer c7Entry ["data"]
    (initState [(["data"], RMeta.dir)])
    (uploadFileContent c7Syncer c7Entry ["data"] (initState [(["data"], RMeta.dir)])).2
    (by decide)).1

/-! ### Claim C10 -/

/-- C10: after a successful content copy the engine always issues a chmod
to the fixed mode 0644 (the local mode is not even collected) and a
set-times call with access time equal to the syncer's clock reading and
modification time equal to that of the local entry; when neither call faults,
the remote file ends with exactly that metadata. -/
theorem c10_fixed_mode_and_times (s : Syncer) (file : FileInfo) (base : Path)
    (st st' : SyncState) (h : uploadFileContent s file base st = (Except.ok (), st')) :
    Op.chmod (base ++ file.relPath) 0o644 ∈ (uploadFile s file base st).2.trace ∧
    Op.chtimes (base ++ file.relPath) s.now file.modTime ∈
      (uploadFile s file base st).2.trace ∧
    (s.faults.chmodFail (base ++ file.relPath) = false →
      s.faults.chtimesFail (base ++ file.relPath) = false →
      lookupFS (uploadFile s file base st).2.fs (base ++ file.relPath) =
        some (RMeta.file file.size file.modTime 0o644 s.now)) := by
  have hfile := uploadFileContent_ok_fs_self h
  have h2 : uploadFile s file base st = (Except.ok (), uploadFileMeta s file base st') := by
    unfold uploadFile
    rw [h]
  obtain ⟨_, _, htr⟩ := uploadFileMeta_ctl s file base st'
  refine ⟨?_, ?_, ?_⟩
  · rw [h2]
    dsimp only
    rw [htr]
    simp
  · rw [h2]
    dsimp only
    rw [htr]
    simp
  · intro hcm hct
    rw [h2]
    dsimp only
    exact uploadFileMeta_fs_self s file base st' file.size 0 0 0 hfile hcm hct

def c10Syncer : Syncer := ⟨["local"], ["data"], "incremental", 1, noFaults, "t", "b", 777⟩

def c10Entry : FileInfo := ⟨["local", "a.txt"], ["a.txt"], 10, 100, false⟩

theorem c10_fixed_mode_and_times_witness :
    lookupFS (uploadFile c10Syncer c10Entry ["data"]
        (initState [(["data"], RMeta.dir)])).2.fs ["data", "a.txt"] =
      some (RMeta.file 10 100 0o644 777) :=
  (c10_fixed_mode_and_times c10Syncer c10Entry ["data"]
    (initState [(["data"], RMeta.dir)])
    (uploadFileContent c10Syncer c10Entry ["data"] (initState [(["data"], RMeta.dir)])).2
    (by decide)).2.2 rfl rfl

/-! ### Claim C9 -/

def c9Syncer : Syncer := ⟨["local"], ["data"], "full", 0, noFaults, "t", "b", 777⟩

def c9Files : List FileInfo := [⟨["local", "a.txt"], ["a.txt"], 10, 100, false⟩]

def c9FS : RemoteFS := [(["data"], RMeta.dir), (["data", "old.txt"], RMeta.file 3 5 420 0)]

/-- C9: with a non-positive worker count the pipeline starts no workers,
transfers nothing and succeeds, leaving the session state unchanged; a
full sync configured with zero workers therefore runs to success through
the backup rename and the swap rename with an empty staging directory and
no transfer, raising no error for the out-of-range worker count. -/
theorem c9_nonpositive_workers :
    (∀ (s : Syncer) (files : List FileInfo) (base : Path) (st : SyncState),
      s.workers ≤ 0 → uploadFiles s files base st = (Except.ok (), st)) ∧
    (fullSync c9Syncer c9Files (initState c9FS)).1 = Except.ok () ∧
    Op.rename c9Syncer.remotePath (backupRemotePath c9Syncer) ∈
      (fullSync c9Syncer c9Files (initState c9FS)).2.trace ∧
    Op.rename (tempRemotePath c9Syncer) c9Syncer.remotePath ∈
      (fullSync c9Syncer c9Files (initState c9FS)).2.trace ∧
    (∀ op ∈ (fullSync c9Syncer c9Files (initState c9FS)).2.trace, op.isWrite = false) ∧
    (fullSync c9Syncer c9Files (initState c9FS)).2.syncedSize = 0 := by
  refine ⟨?_, by decide, by decide, by decide, by decide, by decide⟩
  intro s files base st h
  unfold uploadFiles uploadFilesRun
  rw [if_neg (by omega : ¬ s.workers ≥ 1)]
  rfl

theorem c9_nonpositive_workers_witness :
    uploadFiles c9Syncer c9Files ["data"] (initState c9FS) =
      (Except.ok (), initState c9FS) :=
  c9_nonpositive_workers.1 c9Syncer c9Files ["data"] (initState c9FS) (by decide)

/-! ### Claim C4 -/

/-- C4: when the swap rename of the staging directory onto the target
fails and a backup exists, the engine attempts to rename the backup back
to the target; if that rollback rename succeeds the call fails with the
"sync failed, restored from backup" error, and if the rollback also fails
the call fails with the combined "sync failed and restore failed" error
carrying both underlying causes. -/
theorem c4_swap_failure_rollback (s : Syncer) (st : SyncState) (m : RMeta)
    (hswap : s.faults.renameFail (tempRemotePath s) s.remotePath = true)
    (hbak : lookupFS st.fs (backupRemotePath s) = some m) :
    Op.rename (backupRemotePath s) s.remotePath ∈ (swapPhase s st).2.trace ∧
    (s.faults.renameFail (backupRemotePath s) s.remotePath = true →
      (swapPhase s st).1 = Except.error ("sync failed and restore failed: " ++
        renameErrMsg (tempRemotePath s) s.remotePath ++ ", restore error: " ++
        renameErrMsg (backupRemotePath s) s.remotePath)) ∧
    (s.faults.renameFail (backupRemotePath s) s.remotePath = false →
      lookupFS st.fs s.remotePath = none →
      (swapPhase s st).1 = Except.error ("sync failed, restored from backup: " ++
        renameErrMsg (tempRemotePath s) s.remotePath)) := by
  refine ⟨?_, ?_, ?_⟩
  · show Op.rename (backupRemotePath s) s.remotePath ∈ (swapPhase s st).2.trace
    by_cases hroll : s.faults.renameFail (backupRemotePath s) s.remotePath = true
    · simp [swapPhase, clientRename, clientStat, hswap, hbak, hroll]
    · by_cases hr : (lookupFS st.fs s.remotePath).isSome = true
      · simp [swapPhase, clientRename, clientStat, hswap, hbak, hroll, hr]
      · simp [swapPhase, clientRename, clientStat, hswap, hbak, hroll, hr]
  · intro hroll
    simp [swapPhase, clientRename, clientStat, hswap, hbak, hroll, renameErrMsg]
  · intro hroll hnone
    simp [swapPhase, clientRename, clientStat, hswap, hbak, hroll, hnone, renameErrMsg]

def c4Syncer : Syncer :=
  ⟨["local"], ["data"], "full", 1,
   ⟨fun _ => false, fun _ => false, fun _ => false, fun _ _ => false,
    fun _ => false, fun _ => false,
    fun o _ => decide (o = [".sync_tmp_t"]), fun _ => false⟩,
   "t", "b", 777⟩

def c4State : SyncState := initState [(["data.bak_b"], RMeta.dir), ([".sync_tmp_t"], RMeta.dir)]

theorem c4_swap_failure_rollback_witness :
    (swapPhase c4Syncer c4State).1 = Except.error ("sync failed, restored from backup: " ++
      renameErrMsg (tempRemotePath c4Syncer) c4Syncer.remotePath) :=
  (c4_swap_failure_rollback c4Syncer c4State RMeta.dir (by decide) (by decide)).2.2
    (by decide) (by decide)

/-! ### Claim C3 -/

/-- C3: in full mode, when the upload pipeline fails after the staging
directory was created, the call fails with the pipeline error, the
temporary staging directory removal is attempted (best-effort cleanup),
no rename — neither backup nor swap — is ever issued, and every remote
path extending the target path still resolves exactly as before the
call. -/
theorem c3_full_sync_safe_abort (s : Syncer) (files : List FileInfo) (fs : RemoteFS)
    (e : String)
    (hpre : ¬ s.remotePath <+: tempRemotePath s)
    (hmk : (clientMkdirAll s.faults (tempRemotePath s) (initState fs)).1 = Except.ok ())
    (hup : (uploadFiles s files (tempRemotePath s)
      (clientMkdirAll s.faults (tempRemotePath s) (initState fs)).2).1 = Except.error e) :
    (fullSync s files (initState fs)).1 = Except.error ("failed to upload files: " ++ e) ∧
    Op.removeDir (tempRemotePath s) ∈ (fullSync s files (initState fs)).2.trace ∧
    (∀ o n, Op.rename o n ∉ (fullSync s files (initState fs)).2.trace) ∧
    (∀ q, s.remotePath <+: q →
      lookupFS (fullSync s files (initState fs)).2.fs q = lookupFS fs q) := by
  have hmkfs := clientMkdirAll_fs_untouched s.faults (tempRemotePath s) (initState fs)
  have hmkctl := clientMkdirAll_ctl s.faults (tempRemotePath s) (initState fs)
  have hupfs := uploadFiles_fs_untouched s files (tempRemotePath s)
    (clientMkdirAll s.faults (tempRemotePath s) (initState fs)).2
  have hpe := pipeExt_uploadFiles s files (tempRemotePath s)
    (clientMkdirAll s.faults (tempRemotePath s) (initState fs)).2
  rcases h1 : clientMkdirAll s.faults (tempRemotePath s) (initState fs) with ⟨r1, st1⟩
  rw [h1] at hmk hup hmkfs hmkctl hupfs hpe
  dsimp only at hmk hup hmkfs hmkctl hupfs hpe
  subst hmk
  rcases h2 : uploadFiles s files (tempRemotePath s) st1 with ⟨r2, st2⟩
  rw [h2] at hup hupfs hpe
  dsimp only at hup hupfs hpe
  subst hup
  have hfull : fullSync s files (initState fs) =
      (Except.error ("failed to upload files: " ++ e), cleanupTemp s st2) := by
    unfold fullSync fullSyncBody
    rw [h1]
    dsimp only
    rw [h2]
  obtain ⟨htr1, _, _, _⟩ := hmkctl
  obtain ⟨⟨dt, htr2, hnd⟩, _, _⟩ := hpe
  have htr1' : st1.trace = [Op.mkdirAll (tempRemotePath s)] := by
    simpa [initState] using htr1
  have hctr : (cleanupTemp s st2).trace =
      ([Op.mkdirAll (tempRemotePath s)] ++ dt) ++ [Op.removeDir (tempRemotePath s)] := by
    rw [cleanupTemp_trace, htr2, htr1']
  refine ⟨?_, ?_, ?_, ?_⟩
  · rw [hfull]
  · rw [hfull]
    dsimp only
    rw [hctr]
    simp
  · intro o n hmem
    rw [hfull] at hmem
    dsimp only at hmem
    rw [hctr] at hmem
    rcases List.mem_append.mp hmem with hmem | hmem
    · rcases List.mem_append.mp hmem with hmem | hmem
      · simp at hmem
      · have := hnd _ hmem
        simp [Op.isDestructive] at this
    · simp at hmem
  · intro q hq
    have hqnp : ¬ q <+: tempRemotePath s := by
      have := remote_not_under_temp s hpre q hq []
      rwa [List.append_nil] at this
    have hqne : q ≠ tempRemotePath s := fun heq => hqnp (heq ▸ List.prefix_rfl)
    rw [hfull]
    dsimp only
    rw [cleanupTemp_fs_ne s st2 q hqne]
    rw [hupfs q (fun f _ => remote_not_under_temp s hpre q hq f.relPath)]
    rw [hmkfs q hqnp]
    rfl

def c3Syncer : Syncer :=
  ⟨["local"], ["data"], "full", 1,
   ⟨fun _ => false, fun _ => false, fun _ => false,
    fun p _ => decide (p = [".sync_tmp_t", "a.txt"]),
    fun _ => false, fun _ => false, fun _ _ => false, fun _ => false⟩,
   "t", "b", 777⟩

def c3FS : RemoteFS := [(["data"], RMeta.dir), (["data", "old.txt"], RMeta.file 3 5 420 0)]

def c3Files : List FileInfo := [⟨["local", "a.txt"], ["a.txt"], 10, 100, false⟩]

def c3Err : String :=
  "worker error: failed to upload file a.txt: failed to write to remote file: write failure at .sync_tmp_t/a.txt"

theorem c3_full_sync_safe_abort_witness :
    (fullSync c3Syncer c3Files (initState c3FS)).1 =
      Except.error ("failed to upload files: " ++ c3Err) ∧
    Op.removeDir (tempRemotePath c3Syncer) ∈ (fullSync c3Syncer c3Files (initState c3FS)).2.trace ∧
    lookupFS (fullSync c3Syncer c3Files (initState c3FS)).2.fs ["data", "old.txt"] =
      lookupFS c3FS ["data", "old.txt"] :=
  ⟨(c3_full_sync_safe_abort c3Syncer c3Files c3FS c3Err (by decide) (by decide) (by decide)).1,
   (c3_full_sync_safe_abort c3Syncer c3Files c3FS c3Err (by decide) (by decide) (by decide)).2.1,
   (c3_full_sync_safe_abort c3Syncer c3Files c3FS c3Err (by decide) (by decide) (by decide)).2.2.2
     ["data", "old.txt"] (by decide)⟩

end FileUploader
